import Mathlib

/-!
Verification of the `wallIO` JSON validation / import-export module of the
Poster Wall Designer repository (`src/utils/wallIO.ts`), against its
natural-language specification.

Modelling conventions (shallow embedding):
* JavaScript runtime values reachable from `JSON.parse` or held in memory are
  the inductive `JsValue`; `undefined` is a constructor because the code
  distinguishes a present-but-`undefined` field from an absent one.
* JavaScript numbers are `JsNum`: NaN, the two infinities, or an exact
  rational.  Every finite IEEE-754 double is a rational of the form
  `m / 2^e`, so this domain contains all in-memory numbers; `Number.isFinite`
  becomes a match on the `fin` constructor.
* `JSON.parse` and `JSON.stringify(·, null, 2)` are browser built-ins, not
  repository code; they are modelled here by an executable fuel-based
  recursive-descent JSON reader (`jsonParse`) and a 2-space-indenting
  printer (`stringify`), and the printer/reader pair is proved to be a
  round-trip on the values the module serializes.  The reader accepts a
  slight superset of strict JSON number/string syntax (e.g. redundant
  leading zeros); no claim below depends on the difference.
* Browser side effects (blob downloads, image decoding) are modelled by
  returning the data that would be handed to the browser.
-/

set_option maxRecDepth 400000

/-- A JavaScript number: NaN, an infinity, or a finite value (modelled as an
exact rational; every finite IEEE-754 double is such a rational). -/
inductive JsNum where
  | nan
  | inf
  | negInf
  | fin (q : ℚ)
deriving DecidableEq

/-- A JavaScript runtime value, as reachable by the wallIO module: the
`undefined` marker, `null`, booleans, numbers, strings, arrays and plain
objects (ordered field lists, later duplicates shadowing earlier ones on
lookup, as after `JSON.parse`). -/
inductive JsValue where
  | undef
  | null
  | bool (b : Bool)
  | num (n : JsNum)
  | str (s : String)
  | arr (elems : List JsValue)
  | obj (fields : List (String × JsValue))

/-- Parse a property key as a canonical array index (the decimal numeral
that round-trips through printing), the only keys that address array
elements in JavaScript. -/
def canonicalIndex? (key : String) : Option ℕ :=
  match key.toList with
  | [] => none
  | ds =>
      if ds.all Char.isDigit then
        let i := ds.foldl (fun a c => 10 * a + (c.toNat - 48)) 0
        if toString i = key then some i else none
      else none

/-- Property read `v[key]` as JavaScript resolves it on the values the module
touches: object lookup (last duplicate wins, matching `JSON.parse`), array
`length` and canonical index access, and `undefined` everywhere else. -/
def getField : JsValue → String → JsValue
  | .obj fs, key =>
      (fs.foldl (fun acc kv => if kv.1 = key then some kv.2 else acc) none).getD .undef
  | .arr xs, key =>
      if key = "length" then .num (.fin xs.length)
      else
        match canonicalIndex? key with
        | some i => if i < xs.length then xs.getD i .undef else .undef
        | none => .undef
  | _, _ => (.undef)

/-- Test for the `undefined` marker (the JavaScript `value !== undefined`
comparison, negated). -/
def isUndef : JsValue → Bool
  | .undef => true
  | _ => false

/-- The JavaScript `key in v` operator, restricted to own properties (the
only ones relevant to the fields wallIO probes). -/
def hasField : JsValue → String → Bool
  | .obj fs, key => fs.any (fun kv => kv.1 = key)
  | .arr xs, key =>
      key = "length" ||
        (match canonicalIndex? key with
         | some i => decide (i < xs.length)
         | none => false)
  | _, _ => false

/-! ### The type guards of `wallIO.ts`, line for line -/

/-- Guard `isRecord`: `typeof value === "object" && value !== null`.  Note
that JavaScript arrays satisfy `typeof value === "object"`, so arrays pass
this guard; `null` does not (despite `typeof null === "object"`). -/
def isRecord : JsValue → Bool
  | .obj _ => true
  | .arr _ => true
  | _ => false

/-- Guard `isNumber`: `typeof value === "number" && Number.isFinite(value)`. -/
def isNumber : JsValue → Bool
  | .num (.fin _) => true
  | _ => false

/-- Comparison `value > 0` on a JavaScript number (`Infinity > 0` is true,
`NaN > 0` is false); on non-numbers the result is irrelevant because every
call site guards with `isNumber` first. -/
def numGtZero : JsValue → Bool
  | .num (.fin q) => decide (0 < q)
  | .num .inf => true
  | _ => false

/-- Guard `isPositiveNumber`: `isNumber(value) && value > 0`. -/
def isPositiveNumber (v : JsValue) : Bool :=
  isNumber v && numGtZero v

/-- Guard `isString`: `typeof value === "string"`. -/
def isString : JsValue → Bool
  | .str _ => true
  | _ => false

/-- Guard `isBoolean`: `typeof value === "boolean"`. -/
def isBoolean : JsValue → Bool
  | .bool _ => true
  | _ => false

/-- Guard `isSettings` of `wallIO.ts`: a record whose `wallWidth`,
`wallHeight`, `gridStep` are positive finite numbers, `background` and
`gridColor` are strings, and `showGrid` is a boolean. -/
def isSettings (value : JsValue) : Bool :=
  if ¬isRecord value then false
  else
    isPositiveNumber (getField value "wallWidth") &&
    isPositiveNumber (getField value "wallHeight") &&
    isString (getField value "background") &&
    isBoolean (getField value "showGrid") &&
    isPositiveNumber (getField value "gridStep") &&
    isString (getField value "gridColor")

/-- Guard `isPoster` of `wallIO.ts`: a record with string `id`, `sizeId`,
`label`, finite `x`, `y`, positive finite `width`, `height`; and if an
`imageSrc` property is present and not `undefined` it must be a string. -/
def isPoster (value : JsValue) : Bool :=
  if ¬isRecord value then false
  else if ¬(isString (getField value "id") &&
            isString (getField value "sizeId") &&
            isNumber (getField value "x") &&
            isNumber (getField value "y") &&
            isPositiveNumber (getField value "width") &&
            isPositiveNumber (getField value "height") &&
            isString (getField value "label")) then false
  else if hasField value "imageSrc" && !isUndef (getField value "imageSrc") then
    isString (getField value "imageSrc")
  else true

/-! ### A model of `JSON.parse` (fuel-based recursive descent) -/

/-- JSON insignificant whitespace (also what `JSON.parse` skips). -/
def wsChar (c : Char) : Bool :=
  c == ' ' || c == '\n' || c == '\t' || c == '\r'

/-- Drop leading JSON whitespace. -/
def dropWs : List Char → List Char
  | [] => []
  | c :: cs => if wsChar c then dropWs cs else c :: cs

/-- Decimal digit test. -/
def digitChar (c : Char) : Bool :=
  '0' ≤ c && c ≤ '9'

/-- Split off the longest leading run of decimal digits. -/
def grabDigits : List Char → List Char × List Char
  | [] => ([], [])
  | c :: cs =>
      if digitChar c then
        let p := grabDigits cs
        (c :: p.1, p.2)
      else ([], c :: cs)

/-- Numeric value of a digit run (most significant first). -/
def digitsVal (ds : List Char) : ℕ :=
  ds.foldl (fun a c => 10 * a + (c.toNat - 48)) 0

/-- A remainder that cannot extend a JSON number: empty, or starting with a
character that is neither a digit nor `.`, `e`, `E`.  Every character that
can follow a printed number in rendered JSON qualifies. -/
def numBoundary : List Char → Bool
  | [] => true
  | c :: _ => !(digitChar c || c == '.' || c == 'e' || c == 'E')

/-- Value of one hexadecimal digit, if it is one. -/
def hexDigitVal (c : Char) : Option ℕ :=
  if '0' ≤ c ∧ c ≤ '9' then some (c.toNat - 48)
  else if 'a' ≤ c ∧ c ≤ 'f' then some (c.toNat - 87)
  else if 'A' ≤ c ∧ c ≤ 'F' then some (c.toNat - 55)
  else none

/-- Decode a one-character escape (everything except `\u`). -/
def unescape : Char → Option Char
  | '"' => some '"'
  | '\\' => some '\\'
  | '/' => some '/'
  | 'b' => some '\x08'
  | 'f' => some '\x0c'
  | 'n' => some '\n'
  | 'r' => some '\r'
  | 't' => some '\t'
  | _ => none

/-- Read the body of a JSON string literal (after the opening quote),
accumulating decoded characters in reverse. -/
def readStr (acc : List Char) : List Char → Option (String × List Char)
  | '"' :: cs => some (⟨acc.reverse⟩, cs)
  | '\\' :: 'u' :: h1 :: h2 :: h3 :: h4 :: cs =>
      match hexDigitVal h1, hexDigitVal h2, hexDigitVal h3, hexDigitVal h4 with
      | some a, some b, some x, some y =>
          readStr (Char.ofNat (((a * 16 + b) * 16 + x) * 16 + y) :: acc) cs
      | _, _, _, _ => none
  | '\\' :: c :: cs =>
      match unescape c with
      | some d => readStr (d :: acc) cs
      | none => none
  | c :: cs => readStr (c :: acc) cs
  | [] => none

/-- The rational `±(m / 10^f) · 10^e` denoted by a parsed JSON number with
digit value `m`, `f` fraction digits, exponent `e` and sign `neg`.  The
integer case is built without rational division so that it evaluates by
kernel reduction. -/
def ratOfParts (neg : Bool) (m : ℕ) (f : ℕ) (e : ℤ) : ℚ :=
  let mag : ℚ :=
    if (f : ℤ) ≤ e then ((m * 10 ^ (e - (f : ℤ)).toNat : ℕ) : ℚ)
    else (m : ℚ) / (10 : ℚ) ^ ((f : ℤ) - e).toNat
  if neg then -mag else mag

/-- Split a leading minus sign off a number. -/
def signSplit : List Char → Bool × List Char
  | '-' :: r => (true, r)
  | cs => (false, cs)

/-- Split a fraction part (a dot followed by digits) off a number tail. -/
def fracSplit : List Char → List Char × List Char
  | '.' :: r => grabDigits r
  | cs => ([], cs)

/-- Split an exponent part (`e`/`E`, optional sign, digits) off a number
tail. -/
def expSplit : List Char → ℤ × List Char
  | 'e' :: '+' :: r | 'E' :: '+' :: r =>
      ((digitsVal (grabDigits r).1 : ℤ), (grabDigits r).2)
  | 'e' :: '-' :: r | 'E' :: '-' :: r =>
      (-(digitsVal (grabDigits r).1 : ℤ), (grabDigits r).2)
  | 'e' :: r | 'E' :: r =>
      ((digitsVal (grabDigits r).1 : ℤ), (grabDigits r).2)
  | cs => (0, cs)

/-- Read a JSON number (optional minus, integer digits, optional fraction,
optional exponent) as an exact rational. -/
def readNum (cs : List Char) : Option (ℚ × List Char) :=
  let sp := signSplit cs
  let ipr := grabDigits sp.2
  if ipr.1.isEmpty then none
  else
    let fpr := fracSplit ipr.2
    let epr := expSplit fpr.2
    some (ratOfParts sp.1 (digitsVal (ipr.1 ++ fpr.1)) fpr.1.length epr.1, epr.2)

mutual

/-- Read one JSON value; `fuel` bounds the recursion depth (callers pass more
fuel than the input length, which is always sufficient). -/
def readVal : ℕ → List Char → Option (JsValue × List Char)
  | 0, _ => none
  | fuel + 1, cs =>
      match dropWs cs with
      | 'n' :: 'u' :: 'l' :: 'l' :: r => some (.null, r)
      | 't' :: 'r' :: 'u' :: 'e' :: r => some (.bool true, r)
      | 'f' :: 'a' :: 'l' :: 's' :: 'e' :: r => some (.bool false, r)
      | '"' :: r => (readStr [] r).map fun p => (.str p.1, p.2)
      | '[' :: r =>
          (match dropWs r with
           | ']' :: r2 => some (.arr [], r2)
           | r2 => (readItems fuel r2).map fun p => (.arr p.1, p.2))
      | '{' :: r =>
          (match dropWs r with
           | '}' :: r2 => some (.obj [], r2)
           | r2 => (readFields fuel r2).map fun p => (.obj p.1, p.2))
      | c :: r =>
          if c == '-' || digitChar c then
            (readNum (c :: r)).map fun p => (.num (.fin p.1), p.2)
          else none
      | [] => none

/-- Read one or more comma-separated array elements up to the closing `]`. -/
def readItems : ℕ → List Char → Option (List JsValue × List Char)
  | 0, _ => none
  | fuel + 1, cs =>
      (readVal fuel cs).bind fun p =>
        match dropWs p.2 with
        | ',' :: r2 => (readItems fuel r2).map fun q => (p.1 :: q.1, q.2)
        | ']' :: r2 => some ([p.1], r2)
        | _ => none

/-- Read one or more comma-separated object members up to the closing brace. -/
def readFields : ℕ → List Char → Option (List (String × JsValue) × List Char)
  | 0, _ => none
  | fuel + 1, cs =>
      match dropWs cs with
      | '"' :: r =>
          (readStr [] r).bind fun kp =>
            match dropWs kp.2 with
            | ':' :: r2 =>
                (readVal fuel r2).bind fun vp =>
                  match dropWs vp.2 with
                  | ',' :: r4 => (readFields fuel r4).map fun q => ((kp.1, vp.1) :: q.1, q.2)
                  | '}' :: r4 => some ([(kp.1, vp.1)], r4)
                  | _ => none
            | _ => none
      | _ => none

end

/-- Model of `JSON.parse`: read one value and require only whitespace after
it; any syntax failure collapses to `none` (the caller only catches). -/
def jsonParse (s : String) : Option JsValue :=
  match readVal (s.length + 1) s.toList with
  | some (v, r) => if (dropWs r).isEmpty then some v else none
  | none => none

/-! ### `parseWallData` -/

/-- Characters removed by JavaScript `String.prototype.trim` (ECMAScript
WhiteSpace and LineTerminator). -/
def jsTrimChar (c : Char) : Bool :=
  wsChar c || c.toNat == 0xB || c.toNat == 0xC || c.toNat == 0xA0 ||
    c.toNat == 0xFEFF || c.toNat == 0x1680 ||
    (0x2000 <= c.toNat && c.toNat <= 0x200A) || c.toNat == 0x2028 ||
    c.toNat == 0x2029 || c.toNat == 0x202F || c.toNat == 0x205F ||
    c.toNat == 0x3000

/-- Model of `jsonText.trim()`. -/
def jsTrim (s : String) : String :=
  ⟨((s.toList.dropWhile jsTrimChar).reverse.dropWhile jsTrimChar).reverse⟩

/-- The closed error enumeration `ParseWallError` of `wallIO.ts` (constructor
names are the hyphenated string literals of the source). -/
inductive ParseWallError where
  | empty
  | invalidJson
  | invalidRoot
  | invalidSettings
  | invalidPosters
deriving DecidableEq

/-- The successful payload `{ settings, posters }`: the parsed `settings`
value and the elements of the parsed `posters` array, exactly as parsed
(TypeScript merely narrows their static types). -/
structure WallDataOut where
  settings : JsValue
  posters : List JsValue

/-- Result type `ParseWallResult` of `wallIO.ts`. -/
structure ParseWallResult where
  data : Option WallDataOut
  error : Option ParseWallError

/-- The validator `parseWallData` of `wallIO.ts`: trim, reject empty, parse
JSON, require an object root, validate `settings`, then require `posters` to
be an array of valid posters; on success return the parsed pieces. -/
def parseWallData (jsonText : String) : ParseWallResult :=
  let trimmed := jsTrim jsonText
  if trimmed.isEmpty then ⟨none, some .empty⟩
  else
    match jsonParse trimmed with
    | none => ⟨none, some .invalidJson⟩
    | some parsed =>
        if ¬isRecord parsed then ⟨none, some .invalidRoot⟩
        else
          let settings := getField parsed "settings"
          let posters := getField parsed "posters"
          if ¬isSettings settings then ⟨none, some .invalidSettings⟩
          else
            match posters with
            | .arr xs =>
                if xs.all isPoster then ⟨some ⟨settings, xs⟩, none⟩
                else ⟨none, some .invalidPosters⟩
            | _ => ⟨none, some .invalidPosters⟩

/-! ### A model of `JSON.stringify(value, null, 2)` -/

/-- Lower-case hexadecimal digit character for `n < 16`. -/
def toHexChar (n : ℕ) : Char :=
  if n < 10 then Char.ofNat (48 + n) else Char.ofNat (87 + n)

/-- JSON escape of one character, as `JSON.stringify` performs it: quote and
backslash get a backslash escape, the five named control characters their
short form, other control characters a `\u00XX` escape, everything else is
emitted verbatim. -/
def escapeChar (c : Char) : List Char :=
  if c = '"' then ['\\', '"']
  else if c = '\\' then ['\\', '\\']
  else if c = '\x08' then ['\\', 'b']
  else if c = '\t' then ['\\', 't']
  else if c = '\n' then ['\\', 'n']
  else if c = '\x0c' then ['\\', 'f']
  else if c = '\r' then ['\\', 'r']
  else if c.toNat < 32 then
    ['\\', 'u', '0', '0', toHexChar (c.toNat / 16), toHexChar (c.toNat % 16)]
  else [c]

/-- A rendered string literal: quote, escaped characters, quote. -/
def renderStrChars (s : String) : List Char :=
  '"' :: (s.toList.flatMap escapeChar ++ ['"'])

/-- Decimal digits of `n`, most significant first, left-padded with zeros to
at least `w` characters; the first argument is recursion fuel (any amount at
least `w + n` gives the untruncated digits). -/
def natDigsAux : ℕ → ℕ → ℕ → List Char → List Char
  | 0, _, n, acc => Char.ofNat (48 + n % 10) :: acc
  | fuel + 1, w, n, acc =>
      if n < 10 ∧ w ≤ 1 then Char.ofNat (48 + n) :: acc
      else natDigsAux fuel (w - 1) (n / 10) (Char.ofNat (48 + n % 10) :: acc)

/-- Decimal digits of `n` padded to width `w`. -/
def natDigs (w n : ℕ) : List Char :=
  natDigsAux (w + n) w n []

/-- Smallest `k ≤ d` with `d ∣ 10 ^ k`, when one exists.  For denominators of
finite doubles (powers of two) the search always succeeds. -/
def decExpSearch (d : ℕ) : Option ℕ :=
  (List.range (d + 1)).find? fun k => decide (d ∣ 10 ^ k)

/-- The number of decimal fraction digits used to print `q`. -/
def decExp (q : ℚ) : ℕ :=
  (decExpSearch q.den).getD 0

/-- Shortest fixed-notation decimal rendering of an exact rational whose
denominator divides a power of ten (which holds for every finite double):
optional minus sign, integer digits, and a fraction part exactly when the
number is not an integer.  This is the notation `JSON.stringify` uses for
numbers in the magnitude range a wall layout contains. -/
def renderQ (q : ℚ) : List Char :=
  let k := decExp q
  let n := q.num.natAbs * 10 ^ k / q.den
  let ds := natDigs (k + 1) n
  (if q < 0 then ['-'] else []) ++
    (if k = 0 then ds else ds.take (ds.length - k) ++ '.' :: ds.drop (ds.length - k))

/-- Rendering of a JavaScript number: `JSON.stringify` turns NaN and the
infinities into `null`. -/
def renderNum : JsNum → List Char
  | .fin q => renderQ q
  | _ => ['n', 'u', 'l', 'l']

/-- Indentation: `n` spaces. -/
def indentChars (n : ℕ) : List Char :=
  List.replicate n ' '

mutual

/-- Render a value at indentation level `ind`, in the exact layout of
`JSON.stringify(value, null, 2)`: empty arrays/objects inline, otherwise one
element per line indented two further spaces.  A bare `undefined` renders as
`null` (it can only be reached as an array element, where `JSON.stringify`
substitutes `null`); `undefined`-valued object members are omitted. -/
def renderVal (ind : ℕ) : JsValue → List Char
  | .undef => 'n' :: ['u', 'l', 'l']
  | .null => 'n' :: ['u', 'l', 'l']
  | .bool b => if b then 't' :: ['r', 'u', 'e'] else 'f' :: ['a', 'l', 's', 'e']
  | .num n => renderNum n
  | .str s => renderStrChars s
  | .arr [] => ['[', ']']
  | .arr (x :: xs) =>
      '[' :: (renderArrItems ind true (x :: xs) ++ '\n' :: (indentChars ind ++ [']']))
  | .obj fs =>
      if fs.any (fun kv => !isUndef kv.2) then
        '{' :: (renderObjItems ind true fs ++ '\n' :: (indentChars ind ++ ['}']))
      else ['{', '}']

/-- Array elements, one per line at `ind + 2`, comma-separated (`first` marks
that no separator is due yet). -/
def renderArrItems (ind : ℕ) (first : Bool) : List JsValue → List Char
  | [] => []
  | x :: xs =>
      (if first then ['\n'] else [',', '\n']) ++
        (indentChars (ind + 2) ++ (renderVal (ind + 2) x ++ renderArrItems ind false xs))

/-- Object members, one per line at `ind + 2`, comma-separated, skipping
members whose value is `undefined` (as `JSON.stringify` does). -/
def renderObjItems (ind : ℕ) (first : Bool) : List (String × JsValue) → List Char
  | [] => []
  | (k, v) :: ms =>
      if isUndef v then renderObjItems ind first ms
      else
        (if first then ['\n'] else [',', '\n']) ++
          (indentChars (ind + 2) ++ (renderStrChars k ++ ':' :: ' ' ::
            (renderVal (ind + 2) v ++ renderObjItems ind false ms)))

end

/-- Model of `JSON.stringify(value, null, 2)`. -/
def stringify2 (v : JsValue) : String :=
  ⟨renderVal 0 v⟩

/-! ### The in-memory document types and the export helper -/

/-- The in-memory `Settings` type of `App.tsx` (numeric fields as exact
rationals: every finite double is one, and non-finite values never validate,
so they lie outside every claim about valid documents). -/
structure Settings where
  wallWidth : ℚ
  wallHeight : ℚ
  background : String
  showGrid : Bool
  gridStep : ℚ
  gridColor : String

/-- The in-memory `WallPoster` type of `App.tsx`; the optional `imageSrc`
field is `Option String`, `none` standing for an absent or `undefined` field
(`JSON.stringify` and the validator treat those identically). -/
structure WallPoster where
  id : String
  sizeId : String
  x : ℚ
  y : ℚ
  width : ℚ
  height : ℚ
  label : String
  imageSrc : Option String

/-- The in-memory `WallData` document: settings plus the ordered poster
list. -/
structure WallData where
  settings : Settings
  posters : List WallPoster

/-- The JSON value `JSON.stringify` sees for a `Settings` record (fields in
declaration order, as object literals create them). -/
def encodeSettings (s : Settings) : JsValue :=
  .obj [("wallWidth", .num (.fin s.wallWidth)),
        ("wallHeight", .num (.fin s.wallHeight)),
        ("background", .str s.background),
        ("showGrid", .bool s.showGrid),
        ("gridStep", .num (.fin s.gridStep)),
        ("gridColor", .str s.gridColor)]

/-- The JSON value `JSON.stringify` sees for a `WallPoster` (the `imageSrc`
member present exactly when an image is attached). -/
def encodePoster (p : WallPoster) : JsValue :=
  .obj ([("id", .str p.id),
         ("sizeId", .str p.sizeId),
         ("x", .num (.fin p.x)),
         ("y", .num (.fin p.y)),
         ("width", .num (.fin p.width)),
         ("height", .num (.fin p.height)),
         ("label", .str p.label)] ++
        (match p.imageSrc with
         | some src => [("imageSrc", .str src)]
         | none => []))

/-- The JSON value of a whole document, `{ settings, posters }`. -/
def encodeWallData (d : WallData) : JsValue :=
  .obj [("settings", encodeSettings d.settings),
        ("posters", .arr (d.posters.map encodePoster))]

/-- The export helper `downloadJsonFile` of `wallIO.ts`: the text written to
the downloaded file is `JSON.stringify(data, null, 2)` (the blob/anchor
machinery is a browser side effect and is modelled by returning that text). -/
def downloadJsonFile (data : WallData) : String :=
  stringify2 (encodeWallData data)

/-- The bulk image loader `loadPosterImages` of `wallIO.ts`, modelled by the
list of `(poster id, image source)` load attempts it starts: a poster is
skipped exactly when `poster.imageSrc` is falsy (absent/`undefined` or the
empty string); decoding itself and the per-poster callback are browser side
effects. -/
def loadPosterImages (posters : List WallPoster) : List (String × String) :=
  posters.filterMap fun poster =>
    match poster.imageSrc with
    | some src => if src = "" then none else some (poster.id, src)
    | none => none

/-! ### Specification-side predicates (worded from the spec, for comparison
with the source guards) -/

/-- Settings validity as the specification words it: wall width/height and
grid step are finite numbers strictly greater than zero, background is a
string, grid visibility a boolean, grid color a string. -/
def specSettingsOk (v : JsValue) : Prop :=
  (∃ q : ℚ, getField v "wallWidth" = .num (.fin q) ∧ 0 < q) ∧
  (∃ q : ℚ, getField v "wallHeight" = .num (.fin q) ∧ 0 < q) ∧
  (∃ s, getField v "background" = .str s) ∧
  (∃ b, getField v "showGrid" = .bool b) ∧
  (∃ q : ℚ, getField v "gridStep" = .num (.fin q) ∧ 0 < q) ∧
  (∃ s, getField v "gridColor" = .str s)

/-- Poster validity as the claim words it: `id`, `sizeId`, `label` strings;
`x`, `y` finite numbers with no range restriction; `width`, `height` finite
and strictly positive; `image` absent, explicitly `undefined`, or a string. -/
def specPosterOk (v : JsValue) : Prop :=
  (∃ s, getField v "id" = .str s) ∧
  (∃ s, getField v "sizeId" = .str s) ∧
  (∃ q : ℚ, getField v "x" = .num (.fin q)) ∧
  (∃ q : ℚ, getField v "y" = .num (.fin q)) ∧
  (∃ q : ℚ, getField v "width" = .num (.fin q) ∧ 0 < q) ∧
  (∃ q : ℚ, getField v "height" = .num (.fin q) ∧ 0 < q) ∧
  (∃ s, getField v "label" = .str s) ∧
  (hasField v "imageSrc" = false ∨ getField v "imageSrc" = .undef ∨
    ∃ s, getField v "imageSrc" = .str s)

/-! ### Purity (serializable values) and document validity -/

/-- A rational is decimal-printable when its reduced denominator divides a
power of ten; every finite IEEE-754 double (denominator a power of two)
satisfies this. -/
def decOk (q : ℚ) : Bool :=
  (decExpSearch q.den).isSome

mutual

/-- Values on which the printer/reader pair is a faithful codec: no
`undefined`, and every number finite with a decimal-printable value.  The
encoding of any in-memory wall document built from finite doubles is pure. -/
def pureVal : JsValue → Bool
  | .undef => false
  | .null => true
  | .bool _ => true
  | .num (.fin q) => decOk q
  | .num _ => false
  | .str _ => true
  | .arr xs => pureItems xs
  | .obj fs => pureFields fs

/-- All array elements pure. -/
def pureItems : List JsValue → Bool
  | [] => true
  | x :: xs => pureVal x && pureItems xs

/-- All object member values pure. -/
def pureFields : List (String × JsValue) → Bool
  | [] => true
  | kv :: fs => pureVal kv.2 && pureFields fs

end

/-- Validity of an in-memory document, matching what the validator will
demand of its serialization: strictly positive wall dimensions, grid step
and poster dimensions. -/
def WallData.valid (d : WallData) : Prop :=
  0 < d.settings.wallWidth ∧ 0 < d.settings.wallHeight ∧ 0 < d.settings.gridStep ∧
  ∀ p ∈ d.posters, 0 < p.width ∧ 0 < p.height

/-- All numeric fields of the document are decimal-printable rationals; true
of every document whose numbers are finite doubles. -/
def WallData.decimal (d : WallData) : Prop :=
  decOk d.settings.wallWidth = true ∧ decOk d.settings.wallHeight = true ∧
  decOk d.settings.gridStep = true ∧
  ∀ p ∈ d.posters,
    decOk p.x = true ∧ decOk p.y = true ∧ decOk p.width = true ∧ decOk p.height = true

/-! ### Characterizations of the guards -/

theorem isNumber_iff {v : JsValue} : isNumber v = true ↔ ∃ q : ℚ, v = .num (.fin q) := by
  rcases v with _ | _ | b | n | s | xs | fs <;>
    first
      | (rcases n with _ | _ | _ | q <;> simp [isNumber])
      | simp [isNumber]

theorem isPositiveNumber_iff {v : JsValue} :
    isPositiveNumber v = true ↔ ∃ q : ℚ, v = .num (.fin q) ∧ 0 < q := by
  rcases v with _ | _ | b | n | s | xs | fs <;>
    first
      | (rcases n with _ | _ | _ | q <;> simp [isPositiveNumber, isNumber, numGtZero])
      | simp [isPositiveNumber, isNumber, numGtZero]

theorem isString_iff {v : JsValue} : isString v = true ↔ ∃ s, v = .str s := by
  rcases v with _ | _ | b | n | s | xs | fs <;> simp [isString]

theorem isBoolean_iff {v : JsValue} : isBoolean v = true ↔ ∃ b, v = .bool b := by
  rcases v with _ | _ | b | n | s | xs | fs <;> simp [isBoolean]

theorem isUndef_iff {v : JsValue} : isUndef v = true ↔ v = .undef := by
  rcases v with _ | _ | b | n | s | xs | fs <;> simp [isUndef]

theorem getField_of_not_record {v : JsValue} (h : isRecord v = false) (key : String) :
    getField v key = .undef := by
  rcases v with _ | _ | b | n | s | xs | fs <;> simp_all [isRecord, getField]

/-- The source guard `isSettings` decides exactly the specification's
settings-validity condition. -/
theorem isSettings_iff_spec {v : JsValue} : isSettings v = true ↔ specSettingsOk v := by
  by_cases hr : isRecord v
  · simp only [isSettings, hr, not_true, if_false, Bool.ite_eq_true_distrib,
      Bool.and_eq_true, specSettingsOk, isPositiveNumber_iff, isString_iff, isBoolean_iff]
    tauto
  · simp only [Bool.not_eq_true] at hr
    simp [isSettings, hr, specSettingsOk, getField_of_not_record hr]

/-- The source guard `isPoster` decides exactly the specification's
poster-validity condition. -/
theorem isPoster_iff_spec {v : JsValue} : isPoster v = true ↔ specPosterOk v := by
  by_cases hr : isRecord v = true
  · by_cases hA : (isString (getField v "id") && isString (getField v "sizeId") &&
        isNumber (getField v "x") && isNumber (getField v "y") &&
        isPositiveNumber (getField v "width") && isPositiveNumber (getField v "height") &&
        isString (getField v "label")) = true
    · have hA' := hA
      simp only [Bool.and_eq_true] at hA'
      obtain ⟨⟨⟨⟨⟨⟨hid, hsid⟩, hx⟩, hy⟩, hw⟩, hh⟩, hlab⟩ := hA'
      by_cases hC : (hasField v "imageSrc" && !isUndef (getField v "imageSrc")) = true
      · have hstep : isPoster v = isString (getField v "imageSrc") := by
          simp [isPoster, hr, hA, hC]
        have hCf : hasField v "imageSrc" = true ∧ getField v "imageSrc" ≠ .undef := by
          simp only [Bool.and_eq_true, Bool.not_eq_true'] at hC
          exact ⟨hC.1, fun he => by simp [he, isUndef] at hC⟩
        rw [hstep]
        constructor
        · intro himg
          exact ⟨isString_iff.mp hid, isString_iff.mp hsid, isNumber_iff.mp hx,
            isNumber_iff.mp hy, isPositiveNumber_iff.mp hw, isPositiveNumber_iff.mp hh,
            isString_iff.mp hlab, Or.inr (Or.inr (isString_iff.mp himg))⟩
        · intro hspec
          rcases hspec.2.2.2.2.2.2.2 with hno | hund | hs
          · exact absurd hCf.1 (by simp [hno])
          · exact absurd hund hCf.2
          · exact isString_iff.mpr hs
      · have hstep : isPoster v = true := by
          simp [isPoster, hr, hA, hC]
        rw [hstep]
        simp only [true_iff]
        refine ⟨isString_iff.mp hid, isString_iff.mp hsid, isNumber_iff.mp hx,
          isNumber_iff.mp hy, isPositiveNumber_iff.mp hw, isPositiveNumber_iff.mp hh,
          isString_iff.mp hlab, ?_⟩
        by_cases hhf : hasField v "imageSrc" = true
        · refine Or.inr (Or.inl ?_)
          simp only [Bool.and_eq_true, Bool.not_eq_true', not_and] at hC
          have := hC hhf
          simpa [isUndef_iff] using this
        · exact Or.inl (by simpa using hhf)
    · have hstep : isPoster v = false := by
        simp [isPoster, hr, hA]
      rw [hstep]
      simp only [Bool.false_eq_true, false_iff]
      intro hspec
      obtain ⟨h1, h2, h3, h4, h5, h6, h7, _⟩ := hspec
      exact hA (by
        simp only [Bool.and_eq_true]
        exact ⟨⟨⟨⟨⟨⟨isString_iff.mpr h1, isString_iff.mpr h2⟩, isNumber_iff.mpr h3⟩,
          isNumber_iff.mpr h4⟩, isPositiveNumber_iff.mpr h5⟩, isPositiveNumber_iff.mpr h6⟩,
          isString_iff.mpr h7⟩)
  · have hr' : isRecord v = false := by simpa using hr
    simp [isPoster, hr', specPosterOk, getField_of_not_record hr']

/-! ### Stage analysis of `parseWallData` -/

theorem jsonParse_empty_none : jsonParse "" = none := rfl

theorem jsonParse_some_ne_empty {t : String} {v : JsValue} (h : jsonParse t = some v) :
    t.isEmpty = false := by
  by_contra hne
  have ht : t = "" := (String.isEmpty_iff t).mp (by simpa using hne)
  rw [ht, jsonParse_empty_none] at h
  exact Option.noConfusion h

/-- Exhaustive behaviour of `parseWallData`: exactly one of the six outcomes
happens, each together with the stage conditions that produce it. -/
theorem parseWallData_spec (s : String) :
    ((jsTrim s).isEmpty = true ∧ parseWallData s = ⟨none, some .empty⟩) ∨
    ((jsTrim s).isEmpty = false ∧ jsonParse (jsTrim s) = none ∧
      parseWallData s = ⟨none, some .invalidJson⟩) ∨
    (∃ v, jsonParse (jsTrim s) = some v ∧ isRecord v = false ∧
      parseWallData s = ⟨none, some .invalidRoot⟩) ∨
    (∃ v, jsonParse (jsTrim s) = some v ∧ isRecord v = true ∧
      isSettings (getField v "settings") = false ∧
      parseWallData s = ⟨none, some .invalidSettings⟩) ∨
    (∃ v, jsonParse (jsTrim s) = some v ∧ isRecord v = true ∧
      isSettings (getField v "settings") = true ∧
      (¬∃ xs, getField v "posters" = .arr xs ∧ xs.all isPoster = true) ∧
      parseWallData s = ⟨none, some .invalidPosters⟩) ∨
    (∃ v xs, jsonParse (jsTrim s) = some v ∧ isRecord v = true ∧
      isSettings (getField v "settings") = true ∧
      getField v "posters" = .arr xs ∧ xs.all isPoster = true ∧
      parseWallData s = ⟨some ⟨getField v "settings", xs⟩, none⟩) := by
  by_cases he : (jsTrim s).isEmpty = true
  · exact Or.inl ⟨he, by simp [parseWallData, he]⟩
  · have he' : (jsTrim s).isEmpty = false := by simpa using he
    cases hp : jsonParse (jsTrim s) with
    | none =>
        exact Or.inr (Or.inl ⟨he', rfl, by simp [parseWallData, he', hp]⟩)
    | some v =>
        by_cases hrec : isRecord v = true
        · by_cases hset : isSettings (getField v "settings") = true
          · cases hpost : getField v "posters" with
            | arr xs =>
                by_cases hall : xs.all isPoster = true
                · refine Or.inr (Or.inr (Or.inr (Or.inr (Or.inr ⟨v, xs, rfl, hrec, hset, hpost, hall, ?_⟩))))
                  simp [parseWallData, he', hp, hrec, hset, hpost, hall]
                · refine Or.inr (Or.inr (Or.inr (Or.inr (Or.inl ⟨v, rfl, hrec, hset, ?_, ?_⟩))))
                  · rintro ⟨ys, hys, hally⟩
                    rw [hpost] at hys
                    cases hys
                    exact hall hally
                  · simp [parseWallData, he', hp, hrec, hset, hpost, hall]
            | undef =>
                refine Or.inr (Or.inr (Or.inr (Or.inr (Or.inl ⟨v, rfl, hrec, hset, ?_, ?_⟩))))
                · rintro ⟨ys, hys, -⟩; rw [hpost] at hys; exact JsValue.noConfusion hys
                · simp [parseWallData, he', hp, hrec, hset, hpost]
            | null =>
                refine Or.inr (Or.inr (Or.inr (Or.inr (Or.inl ⟨v, rfl, hrec, hset, ?_, ?_⟩))))
                · rintro ⟨ys, hys, -⟩; rw [hpost] at hys; exact JsValue.noConfusion hys
                · simp [parseWallData, he', hp, hrec, hset, hpost]
            | bool b =>
                refine Or.inr (Or.inr (Or.inr (Or.inr (Or.inl ⟨v, rfl, hrec, hset, ?_, ?_⟩))))
                · rintro ⟨ys, hys, -⟩; rw [hpost] at hys; exact JsValue.noConfusion hys
                · simp [parseWallData, he', hp, hrec, hset, hpost]
            | num n =>
                refine Or.inr (Or.inr (Or.inr (Or.inr (Or.inl ⟨v, rfl, hrec, hset, ?_, ?_⟩))))
                · rintro ⟨ys, hys, -⟩; rw [hpost] at hys; exact JsValue.noConfusion hys
                · simp [parseWallData, he', hp, hrec, hset, hpost]
            | str t =>
                refine Or.inr (Or.inr (Or.inr (Or.inr (Or.inl ⟨v, rfl, hrec, hset, ?_, ?_⟩))))
                · rintro ⟨ys, hys, -⟩; rw [hpost] at hys; exact JsValue.noConfusion hys
                · simp [parseWallData, he', hp, hrec, hset, hpost]
            | obj fs =>
                refine Or.inr (Or.inr (Or.inr (Or.inr (Or.inl ⟨v, rfl, hrec, hset, ?_, ?_⟩))))
                · rintro ⟨ys, hys, -⟩; rw [hpost] at hys; exact JsValue.noConfusion hys
                · simp [parseWallData, he', hp, hrec, hset, hpost]
          · have hset' : isSettings (getField v "settings") = false := by simpa using hset
            refine Or.inr (Or.inr (Or.inr (Or.inl ⟨v, rfl, hrec, hset', ?_⟩)))
            simp [parseWallData, he', hp, hrec, hset']
        · have hrec' : isRecord v = false := by simpa using hrec
          refine Or.inr (Or.inr (Or.inl ⟨v, rfl, hrec', ?_⟩))
          simp [parseWallData, he', hp, hrec']

/-- C6: for every input string, exactly one of the two result fields is
null: failure populates `error` and leaves `data` null, success populates
`data` and leaves `error` null. -/
theorem parse_result_exclusive (s : String) :
    ((parseWallData s).data = none ∧ (parseWallData s).error ≠ none) ∨
    ((parseWallData s).data ≠ none ∧ (parseWallData s).error = none) := by
  rcases parseWallData_spec s with ⟨-, h⟩ | ⟨-, -, h⟩ | ⟨v, -, -, h⟩ | ⟨v, -, -, -, h⟩ |
    ⟨v, -, -, -, -, h⟩ | ⟨v, xs, -, -, -, -, -, h⟩ <;> rw [h] <;> simp

/-- C2: the five failure reasons are checked in the fixed order `empty`,
`invalid-json`, `invalid-root`, `invalid-settings`, `invalid-posters`,
short-circuiting at the first failing stage: each reason is reported exactly
when its own stage fails and every earlier stage passes; in particular an
object with an invalid `settings` field reports `invalid-settings` even when
`posters` is also malformed. -/
theorem parse_error_priority (s : String) :
    ((parseWallData s).error = some .empty ↔ (jsTrim s).isEmpty = true) ∧
    ((parseWallData s).error = some .invalidJson ↔
      (jsTrim s).isEmpty = false ∧ jsonParse (jsTrim s) = none) ∧
    ((parseWallData s).error = some .invalidRoot ↔
      ∃ v, jsonParse (jsTrim s) = some v ∧ isRecord v = false) ∧
    ((parseWallData s).error = some .invalidSettings ↔
      ∃ v, jsonParse (jsTrim s) = some v ∧ isRecord v = true ∧
        isSettings (getField v "settings") = false) ∧
    ((parseWallData s).error = some .invalidPosters ↔
      ∃ v, jsonParse (jsTrim s) = some v ∧ isRecord v = true ∧
        isSettings (getField v "settings") = true ∧
        ¬∃ xs, getField v "posters" = .arr xs ∧ xs.all isPoster = true) ∧
    parseWallData "\x7b\"settings\":0,\"posters\":0\x7d" = ⟨none, some .invalidSettings⟩ := by
  refine ⟨⟨?_, ?_⟩, ⟨?_, ?_⟩, ⟨?_, ?_⟩, ⟨?_, ?_⟩, ⟨?_, ?_⟩, ?_⟩
  · intro h
    rcases parseWallData_spec s with ⟨he, heq⟩ | ⟨-, -, heq⟩ | ⟨v, -, -, heq⟩ |
      ⟨v, -, -, -, heq⟩ | ⟨v, -, -, -, -, heq⟩ | ⟨v, xs, -, -, -, -, -, heq⟩ <;>
      rw [heq] at h <;> first | exact he | simp at h
  · intro he
    simp [parseWallData, he]
  · intro h
    rcases parseWallData_spec s with ⟨he, heq⟩ | ⟨he, hj, heq⟩ | ⟨v, -, -, heq⟩ |
      ⟨v, -, -, -, heq⟩ | ⟨v, -, -, -, -, heq⟩ | ⟨v, xs, -, -, -, -, -, heq⟩ <;>
      rw [heq] at h <;> first | exact ⟨he, hj⟩ | simp at h
  · rintro ⟨he, hj⟩
    simp [parseWallData, he, hj]
  · intro h
    rcases parseWallData_spec s with ⟨he, heq⟩ | ⟨he, hj, heq⟩ | ⟨v, hp, hrec, heq⟩ |
      ⟨v, -, -, -, heq⟩ | ⟨v, -, -, -, -, heq⟩ | ⟨v, xs, -, -, -, -, -, heq⟩ <;>
      rw [heq] at h <;> first | exact ⟨v, hp, hrec⟩ | simp at h
  · rintro ⟨v, hp, hrec⟩
    simp [parseWallData, jsonParse_some_ne_empty hp, hp, hrec]
  · intro h
    rcases parseWallData_spec s with ⟨he, heq⟩ | ⟨he, hj, heq⟩ | ⟨v, hp, hrec, heq⟩ |
      ⟨v, hp, hrec, hset, heq⟩ | ⟨v, -, -, -, -, heq⟩ | ⟨v, xs, -, -, -, -, -, heq⟩ <;>
      rw [heq] at h <;> first | exact ⟨v, hp, hrec, hset⟩ | simp at h
  · rintro ⟨v, hp, hrec, hset⟩
    simp [parseWallData, jsonParse_some_ne_empty hp, hp, hrec, hset]
  · intro h
    rcases parseWallData_spec s with ⟨he, heq⟩ | ⟨he, hj, heq⟩ | ⟨v, hp, hrec, heq⟩ |
      ⟨v, hp, hrec, hset, heq⟩ | ⟨v, hp, hrec, hset, hnall, heq⟩ |
      ⟨v, xs, -, -, -, -, -, heq⟩ <;>
      rw [heq] at h <;> first | exact ⟨v, hp, hrec, hset, hnall⟩ | simp at h
  · rintro ⟨v, hp, hrec, hset, hnall⟩
    cases hpost : getField v "posters" with
    | arr xs =>
        by_cases hall : xs.all isPoster = true
        · exact absurd ⟨xs, hpost, hall⟩ hnall
        · simp [parseWallData, jsonParse_some_ne_empty hp, hp, hrec, hset, hpost, hall]
    | undef => simp [parseWallData, jsonParse_some_ne_empty hp, hp, hrec, hset, hpost]
    | null => simp [parseWallData, jsonParse_some_ne_empty hp, hp, hrec, hset, hpost]
    | bool b => simp [parseWallData, jsonParse_some_ne_empty hp, hp, hrec, hset, hpost]
    | num n => simp [parseWallData, jsonParse_some_ne_empty hp, hp, hrec, hset, hpost]
    | str t => simp [parseWallData, jsonParse_some_ne_empty hp, hp, hrec, hset, hpost]
    | obj fs => simp [parseWallData, jsonParse_some_ne_empty hp, hp, hrec, hset, hpost]
  · rfl

/-- Characterization of the `invalid-settings` outcome (helper shared by the
settings-stage claims). -/
theorem error_invalidSettings_iff (s : String) :
    (parseWallData s).error = some .invalidSettings ↔
      ∃ v, jsonParse (jsTrim s) = some v ∧ isRecord v = true ∧
        isSettings (getField v "settings") = false := by
  constructor
  · intro h
    rcases parseWallData_spec s with ⟨he, heq⟩ | ⟨he, hj, heq⟩ | ⟨v, hp, hrec, heq⟩ |
      ⟨v, hp, hrec, hset, heq⟩ | ⟨v, hp, hrec, hset, hnall, heq⟩ |
      ⟨v, xs, hp, hrec, hset, hpost, hall, heq⟩ <;>
      rw [heq] at h <;> first | exact ⟨v, hp, hrec, hset⟩ | simp at h
  · rintro ⟨v, hp, hrec, hset⟩
    simp [parseWallData, jsonParse_some_ne_empty hp, hp, hrec, hset]

/-- C1 (counterexample): the input `"[]"` parses to an array, yet
`parseWallData` does not report `invalid-root` for it — JavaScript arrays
satisfy `typeof value === "object"`, pass the root check, and fail later at
the settings stage. -/
theorem array_root_counterexample :
    jsonParse (jsTrim "[]") = some (.arr []) ∧
    parseWallData "[]" = ⟨none, some .invalidSettings⟩ ∧
    parseWallData "[]" ≠ ⟨none, some .invalidRoot⟩ := by
  refine ⟨by rfl, by rfl, ?_⟩
  intro h
  rw [show parseWallData "[]" = ⟨none, some .invalidSettings⟩ from by rfl] at h
  simp at h

/-- C1 (amended): a parsed root that is a string, number, boolean or null is
reported as `invalid-root` with a null document; a parsed root that is an
array passes the root check (arrays are objects in JavaScript) and is
reported as `invalid-settings` instead, since reading `settings` off an
array yields `undefined`. -/
theorem primitive_root_invalid {s : String} {v : JsValue}
    (hp : jsonParse (jsTrim s) = some v) :
    ((v = .null ∨ (∃ b, v = .bool b) ∨ (∃ n, v = .num n) ∨ (∃ t, v = .str t)) →
      parseWallData s = ⟨none, some .invalidRoot⟩) ∧
    (∀ xs, v = .arr xs → parseWallData s = ⟨none, some .invalidSettings⟩) := by
  constructor
  · intro hv
    have hrec : isRecord v = false := by
      rcases hv with rfl | ⟨b, rfl⟩ | ⟨n, rfl⟩ | ⟨t, rfl⟩ <;> rfl
    simp [parseWallData, jsonParse_some_ne_empty hp, hp, hrec]
  · rintro xs rfl
    have hget : getField (JsValue.arr xs) "settings" = .undef := by rfl
    have hset : isSettings (getField (JsValue.arr xs) "settings") = false := by
      rw [hget]; rfl
    simp [parseWallData, jsonParse_some_ne_empty hp, hp, isRecord, hset]

/-- C1 (witness): the amended claim applied to the concrete inputs `"null"`
(primitive root, `invalid-root`) and `"[true]"` (array root,
`invalid-settings`). -/
theorem primitive_root_invalid_witness :
    parseWallData "null" = ⟨none, some .invalidRoot⟩ ∧
    parseWallData "[true]" = ⟨none, some .invalidSettings⟩ :=
  ⟨(primitive_root_invalid (v := .null) (by rfl)).1 (Or.inl rfl),
   (primitive_root_invalid (v := .arr [.bool true]) (by rfl)).2 [.bool true] rfl⟩

/-- C3: for an object root, `invalid-settings` is reported exactly when the
`settings` field fails the specification's settings-validity condition
(missing key or mistyped value; wall width/height and grid step finite and
strictly positive, background/grid color strings, grid visibility boolean);
no partial defaults are substituted. -/
theorem settings_stage_exact {s : String} {v : JsValue}
    (hp : jsonParse (jsTrim s) = some v) (hrec : isRecord v = true) :
    (parseWallData s).error = some .invalidSettings ↔
      ¬specSettingsOk (getField v "settings") := by
  rw [error_invalidSettings_iff]
  constructor
  · rintro ⟨v', hp', hrec', hset'⟩
    rw [hp] at hp'
    cases hp'
    intro hspec
    rw [isSettings_iff_spec.mpr hspec] at hset'
    exact Bool.noConfusion hset'
  · intro hnspec
    refine ⟨v, hp, hrec, ?_⟩
    cases hs : isSettings (getField v "settings") with
    | false => rfl
    | true => exact absurd (isSettings_iff_spec.mp hs) hnspec

/-- C3 (witness): the claim applied to the concrete input whose `settings`
field is `true` (mistyped), which is reported as `invalid-settings`. -/
theorem settings_stage_exact_witness :
    (parseWallData "\x7b\"settings\":true,\"posters\":[]\x7d").error =
      some .invalidSettings := by
  refine (settings_stage_exact
    (v := .obj [("settings", .bool true), ("posters", .arr [])]) (by rfl) (by rfl)).mpr ?_
  rintro ⟨⟨q, hq, -⟩, -⟩
  rw [show getField (JsValue.obj [("settings", JsValue.bool true), ("posters", JsValue.arr [])])
    "settings" = JsValue.bool true from by rfl] at hq
  rw [show getField (JsValue.bool true) "wallWidth" = JsValue.undef from by rfl] at hq
  exact JsValue.noConfusion hq

/-- C4: a poster element validates exactly under the specification's poster
condition; concretely, a poster without the `image` field and one with it
explicitly `undefined` both validate, while a present non-`undefined`
non-string value such as `null` fails. -/
theorem poster_validity_exact :
    (∀ v, isPoster v = true ↔ specPosterOk v) ∧
    isPoster (.obj [("id", .str "p1"), ("sizeId", .str "s1"), ("x", .num (.fin 10)),
      ("y", .num (.fin (-4))), ("width", .num (.fin 100)), ("height", .num (.fin 150)),
      ("label", .str "A")]) = true ∧
    isPoster (.obj [("id", .str "p1"), ("sizeId", .str "s1"), ("x", .num (.fin 10)),
      ("y", .num (.fin (-4))), ("width", .num (.fin 100)), ("height", .num (.fin 150)),
      ("label", .str "A"), ("imageSrc", .undef)]) = true ∧
    isPoster (.obj [("id", .str "p1"), ("sizeId", .str "s1"), ("x", .num (.fin 10)),
      ("y", .num (.fin (-4))), ("width", .num (.fin 100)), ("height", .num (.fin 150)),
      ("label", .str "A"), ("imageSrc", .null)]) = false :=
  ⟨fun _ => isPoster_iff_spec, by rfl, by rfl, by rfl⟩

/-- C8 (counterexample): the validator accepts a settings record whose
`background` and `gridColor` are the empty string, so accepted color fields
need not be non-empty. -/
theorem empty_color_accepted :
    isSettings (.obj [("wallWidth", .num (.fin 1400)), ("wallHeight", .num (.fin 800)),
      ("background", .str ""), ("showGrid", .bool true), ("gridStep", .num (.fin 20)),
      ("gridColor", .str "")]) = true ∧
    getField (.obj [("wallWidth", .num (.fin 1400)), ("wallHeight", .num (.fin 800)),
      ("background", .str ""), ("showGrid", .bool true), ("gridStep", .num (.fin 20)),
      ("gridColor", .str "")]) "background" = .str "" := ⟨by rfl, by rfl⟩

/-- C8 (amended): every settings record the validator accepts has finite,
strictly positive numeric fields, and its `background` and `gridColor`
fields are strings — possibly empty: emptiness is not checked. -/
theorem settings_invariant_amended {v : JsValue} (h : isSettings v = true) :
    (∃ q : ℚ, getField v "wallWidth" = .num (.fin q) ∧ 0 < q) ∧
    (∃ q : ℚ, getField v "wallHeight" = .num (.fin q) ∧ 0 < q) ∧
    (∃ q : ℚ, getField v "gridStep" = .num (.fin q) ∧ 0 < q) ∧
    (∃ cs, getField v "background" = .str cs) ∧
    (∃ cs, getField v "gridColor" = .str cs) := by
  obtain ⟨h1, h2, h3, h4, h5, h6⟩ := isSettings_iff_spec.mp h
  exact ⟨h1, h2, h5, h3, h6⟩

/-- C8 (witness): the amended invariant at the concrete accepted settings
record with empty color strings. -/
theorem settings_invariant_amended_witness :
    (∃ q : ℚ, getField (JsValue.obj [("wallWidth", .num (.fin 1400)),
      ("wallHeight", .num (.fin 800)), ("background", .str ""), ("showGrid", .bool true),
      ("gridStep", .num (.fin 20)), ("gridColor", .str "")]) "wallWidth" =
        .num (.fin q) ∧ 0 < q) ∧
    (∃ q : ℚ, getField (JsValue.obj [("wallWidth", .num (.fin 1400)),
      ("wallHeight", .num (.fin 800)), ("background", .str ""), ("showGrid", .bool true),
      ("gridStep", .num (.fin 20)), ("gridColor", .str "")]) "wallHeight" =
        .num (.fin q) ∧ 0 < q) ∧
    (∃ q : ℚ, getField (JsValue.obj [("wallWidth", .num (.fin 1400)),
      ("wallHeight", .num (.fin 800)), ("background", .str ""), ("showGrid", .bool true),
      ("gridStep", .num (.fin 20)), ("gridColor", .str "")]) "gridStep" =
        .num (.fin q) ∧ 0 < q) ∧
    (∃ cs, getField (JsValue.obj [("wallWidth", .num (.fin 1400)),
      ("wallHeight", .num (.fin 800)), ("background", .str ""), ("showGrid", .bool true),
      ("gridStep", .num (.fin 20)), ("gridColor", .str "")]) "background" = .str cs) ∧
    (∃ cs, getField (JsValue.obj [("wallWidth", .num (.fin 1400)),
      ("wallHeight", .num (.fin 800)), ("background", .str ""), ("showGrid", .bool true),
      ("gridStep", .num (.fin 20)), ("gridColor", .str "")]) "gridColor" = .str cs) :=
  settings_invariant_amended (by rfl)

/-- C9 (counterexample): `parseWallData` accepts a document whose two posters
carry the same identifier `"p1"`, so poster identifiers in accepted
documents need not be pairwise distinct — no uniqueness check exists. -/
theorem duplicate_poster_ids_accepted :
    parseWallData "\x7b\"settings\":\x7b\"wallWidth\":1400,\"wallHeight\":800,\"background\":\"#fff\",\"showGrid\":true,\"gridStep\":20,\"gridColor\":\"#eee\"\x7d,\"posters\":[\x7b\"id\":\"p1\",\"sizeId\":\"s1\",\"x\":10,\"y\":10,\"width\":100,\"height\":150,\"label\":\"A\"\x7d,\x7b\"id\":\"p1\",\"sizeId\":\"s1\",\"x\":10,\"y\":10,\"width\":100,\"height\":150,\"label\":\"A\"\x7d]\x7d" =
    ⟨some ⟨.obj [("wallWidth", .num (.fin 1400)), ("wallHeight", .num (.fin 800)),
      ("background", .str "#fff"), ("showGrid", .bool true), ("gridStep", .num (.fin 20)),
      ("gridColor", .str "#eee")],
      [.obj [("id", .str "p1"), ("sizeId", .str "s1"), ("x", .num (.fin 10)),
        ("y", .num (.fin 10)), ("width", .num (.fin 100)), ("height", .num (.fin 150)),
        ("label", .str "A")],
       .obj [("id", .str "p1"), ("sizeId", .str "s1"), ("x", .num (.fin 10)),
        ("y", .num (.fin 10)), ("width", .num (.fin 100)), ("height", .num (.fin 150)),
        ("label", .str "A")]]⟩, none⟩ ∧
    getField (.obj [("id", .str "p1"), ("sizeId", .str "s1"), ("x", .num (.fin 10)),
      ("y", .num (.fin 10)), ("width", .num (.fin 100)), ("height", .num (.fin 150)),
      ("label", .str "A")]) "id" = .str "p1" := ⟨by rfl, by rfl⟩

/-- C9 (amended): in every document `parseWallData` accepts, each poster's
identifier is a string; pairwise distinctness is not enforced (duplicate
identifiers are accepted, as the counterexample shows). -/
theorem accepted_poster_ids_are_strings {s : String} {st : JsValue} {ps : List JsValue}
    (h : parseWallData s = ⟨some ⟨st, ps⟩, none⟩) :
    ∀ p ∈ ps, ∃ idStr, getField p "id" = .str idStr := by
  rcases parseWallData_spec s with ⟨-, heq⟩ | ⟨-, -, heq⟩ | ⟨v, -, -, heq⟩ |
    ⟨v, -, -, -, heq⟩ | ⟨v, -, -, -, -, heq⟩ | ⟨v, xs, hp, hrec, hset, hpost, hall, heq⟩ <;>
    rw [heq] at h <;> try simp at h
  intro p hps
  obtain ⟨-, hxs⟩ := h
  rw [hxs] at hall
  have hip : isPoster p = true := by
    rw [List.all_eq_true] at hall
    exact hall p hps
  obtain ⟨⟨idStr, hid⟩, -⟩ := isPoster_iff_spec.mp hip
  exact ⟨idStr, hid⟩

/-- C9 (witness): the amended claim at the concrete duplicate-identifier
document, instantiated at its first poster. -/
theorem accepted_poster_ids_are_strings_witness :
    ∃ idStr, getField (JsValue.obj [("id", .str "p1"), ("sizeId", .str "s1"),
      ("x", .num (.fin 10)), ("y", .num (.fin 10)), ("width", .num (.fin 100)),
      ("height", .num (.fin 150)), ("label", .str "A")]) "id" = .str idStr :=
  @accepted_poster_ids_are_strings
    "\x7b\"settings\":\x7b\"wallWidth\":1400,\"wallHeight\":800,\"background\":\"#fff\",\"showGrid\":true,\"gridStep\":20,\"gridColor\":\"#eee\"\x7d,\"posters\":[\x7b\"id\":\"p1\",\"sizeId\":\"s1\",\"x\":10,\"y\":10,\"width\":100,\"height\":150,\"label\":\"A\"\x7d,\x7b\"id\":\"p1\",\"sizeId\":\"s1\",\"x\":10,\"y\":10,\"width\":100,\"height\":150,\"label\":\"A\"\x7d]\x7d"
    (.obj [("wallWidth", .num (.fin 1400)), ("wallHeight", .num (.fin 800)),
      ("background", .str "#fff"), ("showGrid", .bool true), ("gridStep", .num (.fin 20)),
      ("gridColor", .str "#eee")])
    [JsValue.obj [("id", .str "p1"), ("sizeId", .str "s1"), ("x", .num (.fin 10)),
        ("y", .num (.fin 10)), ("width", .num (.fin 100)), ("height", .num (.fin 150)),
        ("label", .str "A")],
     JsValue.obj [("id", .str "p1"), ("sizeId", .str "s1"), ("x", .num (.fin 10)),
        ("y", .num (.fin 10)), ("width", .num (.fin 100)), ("height", .num (.fin 150)),
        ("label", .str "A")]]
    (by rfl)
    (JsValue.obj [("id", .str "p1"), ("sizeId", .str "s1"), ("x", .num (.fin 10)),
      ("y", .num (.fin 10)), ("width", .num (.fin 100)), ("height", .num (.fin 150)),
      ("label", .str "A")])
    (List.mem_cons_self _ _)

/-- C7: on success the returned document is exactly the parsed `settings`
value and the elements of the parsed `posters` array, order preserved; and
a well-formed document with zero posters succeeds, returning an empty poster
sequence with the settings intact. -/
theorem success_returns_parsed_input :
    (∀ s st ps, parseWallData s = ⟨some ⟨st, ps⟩, none⟩ →
      ∃ root, jsonParse (jsTrim s) = some root ∧ isRecord root = true ∧
        st = getField root "settings" ∧ getField root "posters" = .arr ps) ∧
    parseWallData "\x7b\"settings\":\x7b\"wallWidth\":1400,\"wallHeight\":800,\"background\":\"#fff\",\"showGrid\":true,\"gridStep\":20,\"gridColor\":\"#eee\"\x7d,\"posters\":[]\x7d" =
    ⟨some ⟨.obj [("wallWidth", .num (.fin 1400)), ("wallHeight", .num (.fin 800)),
      ("background", .str "#fff"), ("showGrid", .bool true), ("gridStep", .num (.fin 20)),
      ("gridColor", .str "#eee")], []⟩, none⟩ := by
  constructor
  · intro s st ps h
    rcases parseWallData_spec s with ⟨-, heq⟩ | ⟨-, -, heq⟩ | ⟨v, -, -, heq⟩ |
      ⟨v, -, -, -, heq⟩ | ⟨v, -, -, -, -, heq⟩ | ⟨v, xs, hp, hrec, hset, hpost, hall, heq⟩ <;>
      rw [heq] at h <;> try simp at h
    obtain ⟨hst, hxs⟩ := h
    exact ⟨v, hp, hrec, hst.symm, hxs ▸ hpost⟩
  · rfl

/-- C7 (witness): the preservation statement at the concrete zero-poster
document. -/
theorem success_returns_parsed_input_witness :
    ∃ root, jsonParse (jsTrim "\x7b\"settings\":\x7b\"wallWidth\":1400,\"wallHeight\":800,\"background\":\"#fff\",\"showGrid\":true,\"gridStep\":20,\"gridColor\":\"#eee\"\x7d,\"posters\":[]\x7d") = some root ∧
      isRecord root = true ∧
      JsValue.obj [("wallWidth", .num (.fin 1400)), ("wallHeight", .num (.fin 800)),
        ("background", .str "#fff"), ("showGrid", .bool true), ("gridStep", .num (.fin 20)),
        ("gridColor", .str "#eee")] = getField root "settings" ∧
      getField root "posters" = .arr [] :=
  success_returns_parsed_input.1 _ _ _ (by rfl)

/-- C10: the bulk image loader attempts a load (and hence can invoke the
caller's callback) exactly for posters whose `imageSrc` is present and
non-empty; a poster with an empty-string `imageSrc` — which still passes
poster validation — is silently skipped, as is a poster with no image. -/
theorem image_loader_skips_blank :
    (∀ (posters : List WallPoster) (pid src : String),
      (pid, src) ∈ loadPosterImages posters ↔
        ∃ p ∈ posters, p.id = pid ∧ p.imageSrc = some src ∧ src ≠ "") ∧
    isPoster (encodePoster ⟨"p1", "s1", 1, 2, 100, 150, "A", some ""⟩) = true ∧
    loadPosterImages [⟨"p1", "s1", 1, 2, 100, 150, "A", some ""⟩] = [] ∧
    loadPosterImages [⟨"p1", "s1", 1, 2, 100, 150, "A", none⟩] = [] := by
  refine ⟨?_, by rfl, by rfl, by rfl⟩
  intro posters pid src
  rw [loadPosterImages, List.mem_filterMap]
  constructor
  · rintro ⟨p, hmem, hf⟩
    refine ⟨p, hmem, ?_⟩
    rcases hsrc : p.imageSrc with _ | s
    · simp [hsrc] at hf
    · simp only [hsrc] at hf
      by_cases hz : s = ""
      · simp [hz] at hf
      · rw [if_neg hz] at hf
        have h' := Option.some.inj hf
        have hid : p.id = pid := congrArg Prod.fst h'
        have hs : s = src := congrArg Prod.snd h'
        exact ⟨hid, by rw [hs], hs ▸ hz⟩
  · rintro ⟨p, hmem, hid, hsrc, hz⟩
    exact ⟨p, hmem, by simp [hsrc, hz, hid]⟩

/-! ### Round-trip, part 1: decimal digits and numbers -/

theorem digitCharOfNat {m : ℕ} (h : m < 10) :
    (Char.ofNat (48 + m)).toNat = 48 + m ∧ digitChar (Char.ofNat (48 + m)) = true := by
  interval_cases m <;> exact ⟨by decide, by decide⟩

theorem natDigsAux_shift (fuel : ℕ) : ∀ (w n : ℕ) (acc : List Char),
    natDigsAux fuel w n acc = natDigsAux fuel w n [] ++ acc := by
  induction fuel with
  | zero => intro w n acc; rfl
  | succ fuel ih =>
      intro w n acc
      rw [natDigsAux, natDigsAux]
      by_cases hlt : n < 10 ∧ w ≤ 1
      · simp [hlt]
      · simp only [if_neg hlt]
        rw [ih, ih _ _ [_]]
        simp

theorem natDigsAux_fuel_eq : ∀ (f1 f2 w n : ℕ), w + n ≤ f1 → w + n ≤ f2 →
    ∀ acc, natDigsAux f1 w n acc = natDigsAux f2 w n acc := by
  intro f1
  induction f1 with
  | zero =>
      intro f2 w n h1 h2 acc
      have hw : w = 0 := by omega
      have hn : n = 0 := by omega
      subst hw hn
      cases f2 with
      | zero => rfl
      | succ g => rw [natDigsAux, natDigsAux, if_pos (by omega)]
  | succ g1 ih =>
      intro f2 w n h1 h2 acc
      cases f2 with
      | zero =>
          have hw : w = 0 := by omega
          have hn : n = 0 := by omega
          subst hw hn
          rw [natDigsAux, natDigsAux, if_pos (by omega)]
      | succ g2 =>
          rw [natDigsAux, natDigsAux]
          by_cases hlt : n < 10 ∧ w ≤ 1
          · simp [hlt]
          · simp only [if_neg hlt]
            exact ih g2 (w - 1) (n / 10) (by omega) (by omega) _

theorem natDigs_last (w n : ℕ) :
    natDigs w n = (if n < 10 ∧ w ≤ 1 then [] else natDigs (w - 1) (n / 10)) ++
      [Char.ofNat (48 + n % 10)] := by
  by_cases hz : w + n = 0
  · have hw : w = 0 := by omega
    have hn : n = 0 := by omega
    subst hw hn
    simp [natDigs, natDigsAux]
  · obtain ⟨m, hm⟩ : ∃ m, w + n = m + 1 := ⟨w + n - 1, by omega⟩
    rw [natDigs, hm, natDigsAux]
    by_cases hlt : n < 10 ∧ w ≤ 1
    · rw [if_pos hlt, if_pos hlt, Nat.mod_eq_of_lt hlt.1]
      rfl
    · rw [if_neg hlt, if_neg hlt, natDigsAux_shift,
        natDigsAux_fuel_eq m ((w - 1) + (n / 10)) (w - 1) (n / 10) (by omega) le_rfl]
      rfl

theorem natDigs_ne_nil (w n : ℕ) : natDigs w n ≠ [] := by
  rw [natDigs_last]
  simp

theorem natDigs_all_digits (w n : ℕ) : ∀ c ∈ natDigs w n, digitChar c = true := by
  have key : ∀ N w n, w + n ≤ N → ∀ c ∈ natDigs w n, digitChar c = true := by
    intro N
    induction N with
    | zero =>
        intro w n h c hc
        have hw : w = 0 := by omega
        have hn : n = 0 := by omega
        subst hw hn
        rw [natDigs_last] at hc
        simp at hc
        subst hc
        decide
    | succ N ih =>
        intro w n h c hc
        rw [natDigs_last] at hc
        rcases List.mem_append.mp hc with hm | hm
        · by_cases hlt : n < 10 ∧ w ≤ 1
          · simp [hlt] at hm
          · simp only [if_neg hlt] at hm
            exact ih (w - 1) (n / 10) (by omega) c hm
        · rw [List.mem_singleton] at hm
          subst hm
          exact (digitCharOfNat (Nat.mod_lt _ (by omega))).2
  exact key (w + n) w n le_rfl

theorem digitsVal_append_last (ds : List Char) (c : Char) :
    digitsVal (ds ++ [c]) = 10 * digitsVal ds + (c.toNat - 48) := by
  rw [digitsVal, digitsVal, List.foldl_append]
  rfl

theorem digitsVal_natDigs (w n : ℕ) : digitsVal (natDigs w n) = n := by
  have key : ∀ N w n, w + n ≤ N → digitsVal (natDigs w n) = n := by
    intro N
    induction N with
    | zero =>
        intro w n h
        have hw : w = 0 := by omega
        have hn : n = 0 := by omega
        subst hw hn
        rw [natDigs_last]
        simp [digitsVal]
    | succ N ih =>
        intro w n h
        rw [natDigs_last, digitsVal_append_last]
        have hdig : (Char.ofNat (48 + n % 10)).toNat = 48 + n % 10 :=
          (digitCharOfNat (Nat.mod_lt _ (by omega))).1
        by_cases hlt : n < 10 ∧ w ≤ 1
        · simp only [if_pos hlt]
          rw [hdig]
          simp [digitsVal]
          omega
        · simp only [if_neg hlt]
          rw [ih (w - 1) (n / 10) (by omega), hdig]
          omega
  exact key (w + n) w n le_rfl

theorem natDigs_length (w n : ℕ) : w ≤ (natDigs w n).length := by
  have key : ∀ N w n, w + n ≤ N → w ≤ (natDigs w n).length := by
    intro N
    induction N with
    | zero =>
        intro w n h
        have hw : w = 0 := by omega
        omega
    | succ N ih =>
        intro w n h
        rw [natDigs_last]
        by_cases hlt : n < 10 ∧ w ≤ 1
        · simp only [if_pos hlt, List.nil_append, List.length_singleton]
          omega
        · simp only [if_neg hlt, List.length_append, List.length_singleton]
          have := ih (w - 1) (n / 10) (by omega)
          omega
  exact key (w + n) w n le_rfl

theorem grabDigits_stop {rest : List Char} (h : numBoundary rest = true) :
    grabDigits rest = ([], rest) := by
  cases rest with
  | nil => rfl
  | cons c t =>
      have hc : digitChar c = false := by
        simp only [numBoundary, Bool.not_eq_true', Bool.or_eq_false_iff] at h
        exact h.1.1.1
      simp [grabDigits, hc]

theorem grabDigits_run {ds : List Char} (hds : ∀ c ∈ ds, digitChar c = true)
    {rest : List Char} (hrest : grabDigits rest = ([], rest)) :
    grabDigits (ds ++ rest) = (ds, rest) := by
  induction ds with
  | nil => simpa using hrest
  | cons c t ih =>
      have hc : digitChar c = true := hds c (by simp)
      have ht := ih (fun x hx => hds x (by simp [hx]))
      simp [grabDigits, hc, ht]

theorem digitChar_ne {c : Char} (h : digitChar c = true) :
    c ≠ '-' ∧ c ≠ '.' ∧ c ≠ 'e' ∧ c ≠ 'E' ∧ c ≠ 'n' ∧ c ≠ 't' ∧ c ≠ 'f' ∧
    c ≠ '"' ∧ c ≠ '[' ∧ c ≠ '{' ∧ c ≠ ']' ∧ c ≠ '}' ∧ c ≠ ',' ∧ c ≠ ':' := by
  refine ⟨?_, ?_, ?_, ?_, ?_, ?_, ?_, ?_, ?_, ?_, ?_, ?_, ?_, ?_⟩ <;>
    (intro hv; subst hv; exact absurd h (by decide))

theorem digitChar_not_ws {c : Char} (h : digitChar c = true) : wsChar c = false := by
  cases hw : wsChar c with
  | false => rfl
  | true =>
      simp only [wsChar, Bool.or_eq_true, beq_iff_eq] at hw
      rcases hw with ((hv | hv) | hv) | hv <;> subst hv <;> exact absurd h (by decide)

theorem numBoundary_head {c : Char} {t : List Char} (h : numBoundary (c :: t) = true) :
    digitChar c = false ∧ c ≠ '.' ∧ c ≠ 'e' ∧ c ≠ 'E' := by
  simp only [numBoundary, Bool.not_eq_true', Bool.or_eq_false_iff, beq_eq_false_iff_ne] at h
  exact ⟨h.1.1.1, h.1.1.2, h.1.2, h.2⟩

theorem decOk_dvd {q : ℚ} (h : decOk q = true) : q.den ∣ 10 ^ decExp q := by
  rw [decOk] at h
  obtain ⟨k, hk⟩ := Option.isSome_iff_exists.mp h
  have hdec := List.find?_some hk
  rw [decExp, hk, Option.getD_some]
  exact of_decide_eq_true hdec

theorem ratOfParts_inv (q : ℚ) (k : ℕ) (hdvd : q.den ∣ 10 ^ k) (b : Bool)
    (hb : b = true ↔ q < 0) :
    ratOfParts b (q.num.natAbs * 10 ^ k / q.den) k 0 = q := by
  have hden : (q.den : ℚ) ≠ 0 := by
    exact_mod_cast q.den_nz
  have hmul : q.num.natAbs * 10 ^ k / q.den * q.den = q.num.natAbs * 10 ^ k :=
    Nat.div_mul_cancel (hdvd.mul_left _)
  have hmag : (if ((k : ℕ) : ℤ) ≤ (0 : ℤ) then
        ((q.num.natAbs * 10 ^ k / q.den * 10 ^ ((0 : ℤ) - (k : ℤ)).toNat : ℕ) : ℚ)
      else ((q.num.natAbs * 10 ^ k / q.den : ℕ) : ℚ) / (10 : ℚ) ^ (((k : ℕ) : ℤ) - 0).toNat) =
      ((q.num.natAbs * 10 ^ k / q.den : ℕ) : ℚ) / (10 : ℚ) ^ k := by
    by_cases hk : (k : ℤ) ≤ 0
    · have hk0 : k = 0 := by exact_mod_cast Int.le_antisymm hk (Int.ofNat_nonneg k)
      subst hk0
      simp
    · rw [if_neg hk]
      norm_num
  have hqcast : ((q.num.natAbs * 10 ^ k / q.den : ℕ) : ℚ) / (10 : ℚ) ^ k =
      ((q.num.natAbs : ℚ)) / (q.den : ℚ) := by
    rw [div_eq_div_iff (by positivity) hden]
    exact_mod_cast hmul
  have habs : ((q.num.natAbs : ℚ)) / (q.den : ℚ) = |q| := by
    rw [Int.cast_natAbs, Int.cast_abs]
    rw [show ((q.den : ℚ)) = |(q.den : ℚ)| from (abs_of_nonneg (by positivity)).symm]
    rw [← abs_div, Rat.num_div_den]
  rw [ratOfParts]
  simp only [hmag, hqcast, habs]
  by_cases hneg : q < 0
  · rw [if_pos (hb.mpr hneg)]
    rw [abs_of_neg hneg]
    ring
  · have : b = false := by
      cases hbv : b with
      | false => rfl
      | true => exact absurd (hb.mp hbv) hneg
    rw [this, if_neg (Bool.false_ne_true), abs_of_nonneg (le_of_not_lt hneg)]

theorem signSplit_other {c : Char} {t : List Char} (hc : c ≠ '-') :
    signSplit (c :: t) = (false, c :: t) := by
  rw [signSplit.eq_def]
  split
  · rename_i heq
    rw [List.cons.injEq] at heq
    exact absurd heq.1 hc
  · rfl

theorem fracSplit_stop {w : List Char} (hw : numBoundary w = true) :
    fracSplit w = ([], w) := by
  cases w with
  | nil => rfl
  | cons c t =>
      obtain ⟨-, hdot, -, -⟩ := numBoundary_head hw
      rw [fracSplit.eq_def]
      split
      · rename_i heq
        rw [List.cons.injEq] at heq
        exact absurd heq.1 hdot
      · rfl

theorem expSplit_stop {w : List Char} (hw : numBoundary w = true) :
    expSplit w = (0, w) := by
  cases w with
  | nil => rfl
  | cons c t =>
      obtain ⟨-, -, he, hE⟩ := numBoundary_head hw
      rw [expSplit.eq_def]
      split
      all_goals
        first
          | rfl
          | (rename_i heq
             rw [List.cons.injEq] at heq
             first
               | exact absurd heq.1 he
               | exact absurd heq.1 hE)

theorem grabDigits_dot (x : List Char) : grabDigits ('.' :: x) = ([], '.' :: x) := by
  rw [grabDigits, if_neg (by decide)]

theorem readNum_digits_nodot {ds rest : List Char} (b : Bool) (hne : ds ≠ [])
    (hd : ∀ c ∈ ds, digitChar c = true) (hrest : numBoundary rest = true) :
    readNum ((if b then ['-'] else []) ++ (ds ++ rest)) =
      some (ratOfParts b (digitsVal ds) 0 0, rest) := by
  rcases hcons : ds with _ | ⟨c, t⟩
  · exact absurd hcons hne
  subst hcons
  have hsign : signSplit ((if b then ['-'] else []) ++ ((c :: t) ++ rest)) =
      (b, (c :: t) ++ rest) := by
    cases b with
    | true => rfl
    | false =>
        simp only [if_neg Bool.false_ne_true, List.nil_append]
        exact signSplit_other (digitChar_ne (hd c (by simp))).1
  simp only [readNum, hsign, grabDigits_run hd (grabDigits_stop hrest), List.isEmpty_cons,
    Bool.false_eq_true, if_false, fracSplit_stop hrest, expSplit_stop hrest,
    List.append_nil, List.length_nil]

theorem readNum_digits_dot {a b rest : List Char} (sgn : Bool) (ha : a ≠ [])
    (hda : ∀ c ∈ a, digitChar c = true) (hdb : ∀ c ∈ b, digitChar c = true)
    (hrest : numBoundary rest = true) :
    readNum ((if sgn then ['-'] else []) ++ (a ++ ('.' :: (b ++ rest)))) =
      some (ratOfParts sgn (digitsVal (a ++ b)) b.length 0, rest) := by
  rcases hcons : a with _ | ⟨c, t⟩
  · exact absurd hcons ha
  subst hcons
  have hsign : signSplit ((if sgn then ['-'] else []) ++ ((c :: t) ++ ('.' :: (b ++ rest)))) =
      (sgn, (c :: t) ++ ('.' :: (b ++ rest))) := by
    cases sgn with
    | true => rfl
    | false =>
        simp only [if_neg Bool.false_ne_true, List.nil_append]
        exact signSplit_other (digitChar_ne (hda c (by simp))).1
  have hgrab1 : grabDigits ((c :: t) ++ ('.' :: (b ++ rest))) =
      (c :: t, '.' :: (b ++ rest)) := grabDigits_run hda (grabDigits_dot _)
  have hfrac1 : fracSplit ('.' :: (b ++ rest)) = grabDigits (b ++ rest) := rfl
  simp only [readNum, hsign, hgrab1, List.isEmpty_cons, Bool.false_eq_true, if_false,
    hfrac1, grabDigits_run hdb (grabDigits_stop hrest), expSplit_stop hrest]

theorem readNum_renderQ (q : ℚ) (h : decOk q = true) (rest : List Char)
    (hrest : numBoundary rest = true) :
    readNum (renderQ q ++ rest) = some (q, rest) := by
  have hdvd := decOk_dvd h
  have hdig := natDigs_all_digits (decExp q + 1) (q.num.natAbs * 10 ^ decExp q / q.den)
  have hlenw := natDigs_length (decExp q + 1) (q.num.natAbs * 10 ^ decExp q / q.den)
  have hval := digitsVal_natDigs (decExp q + 1) (q.num.natAbs * 10 ^ decExp q / q.den)
  have hb : (decide (q < 0)) = true ↔ q < 0 := by simp
  by_cases hk0 : decExp q = 0
  · have hbody : renderQ q ++ rest =
        (if decide (q < 0) then ['-'] else []) ++
          (natDigs (decExp q + 1) (q.num.natAbs * 10 ^ decExp q / q.den) ++ rest) := by
      simp only [renderQ, hk0, decide_eq_true_eq, List.append_assoc]
      simp
    rw [hbody, readNum_digits_nodot (decide (q < 0)) (natDigs_ne_nil _ _) hdig hrest]
    rw [hk0] at hval ⊢
    rw [hval]
    have hfin := ratOfParts_inv q (decExp q) hdvd (decide (q < 0)) hb
    rw [hk0] at hfin
    rw [hfin]
  · set L := natDigs (decExp q + 1) (q.num.natAbs * 10 ^ decExp q / q.den) with hL
    set m := L.length - decExp q with hm
    have htadr : L.take m ++ L.drop m = L := List.take_append_drop m L
    have hTne : L.take m ≠ [] := by
      intro hnil
      have hlen0 := congrArg List.length hnil
      rw [List.length_take] at hlen0
      simp only [List.length_nil] at hlen0
      omega
    have hda : ∀ c ∈ L.take m, digitChar c = true :=
      fun c hc => hdig c (List.mem_of_mem_take hc)
    have hdb : ∀ c ∈ L.drop m, digitChar c = true :=
      fun c hc => hdig c (List.mem_of_mem_drop hc)
    have hdroplen : (L.drop m).length = decExp q := by
      rw [List.length_drop]
      omega
    have hbody : renderQ q ++ rest =
        (if decide (q < 0) then ['-'] else []) ++
          (L.take m ++ ('.' :: (L.drop m ++ rest))) := by
      simp only [renderQ, if_neg hk0, decide_eq_true_eq, List.append_assoc, List.cons_append,
        ← hL, ← hm]
    rw [hbody, readNum_digits_dot (decide (q < 0)) hTne hda hdb hrest, htadr, hval, hdroplen]
    rw [ratOfParts_inv q (decExp q) hdvd (decide (q < 0)) hb]

/-! ### Round-trip, part 2: string literals -/

theorem hexDigitVal_toHexChar {m : ℕ} (h : m < 16) : hexDigitVal (toHexChar m) = some m := by
  interval_cases m <;> decide

theorem readStr_plain {c : Char} (acc : List Char) {t : List Char}
    (h1 : c ≠ '"') (h2 : c ≠ '\\') :
    readStr acc (c :: t) = readStr (c :: acc) t := by
  rw [readStr.eq_def]
  split
  all_goals
    first
      | rfl
      | (rename_i heq
         first
           | exact List.noConfusion heq
           | (rw [List.cons.injEq] at heq
              first
                | exact absurd heq.1 h1
                | exact absurd heq.1 h2
                | (obtain ⟨hh, ht⟩ := heq
                   subst hh
                   subst ht
                   rfl)))

theorem readStr_escape (c : Char) (acc t : List Char) :
    readStr acc (escapeChar c ++ t) = readStr (c :: acc) t := by
  by_cases h1 : c = '"'
  · subst h1; rfl
  · by_cases h2 : c = '\\'
    · subst h2; rfl
    · by_cases h3 : c = '\x08'
      · subst h3; rfl
      · by_cases h4 : c = '\t'
        · subst h4; rfl
        · by_cases h5 : c = '\n'
          · subst h5; rfl
          · by_cases h6 : c = '\x0c'
            · subst h6; rfl
            · by_cases h7 : c = '\r'
              · subst h7; rfl
              · by_cases h8 : c.toNat < 32
                · have hhi : c.toNat / 16 < 16 := by omega
                  have hlo : c.toNat % 16 < 16 := by omega
                  simp only [escapeChar, if_neg h1, if_neg h2, if_neg h3, if_neg h4,
                    if_neg h5, if_neg h6, if_neg h7, if_pos h8, List.cons_append,
                    List.nil_append]
                  rw [readStr, hexDigitVal_toHexChar hhi, hexDigitVal_toHexChar hlo]
                  have harith : ((0 * 16 + 0) * 16 + c.toNat / 16) * 16 + c.toNat % 16 =
                      c.toNat := by omega
                  rw [show hexDigitVal '0' = some 0 from rfl]
                  simp only [harith, Char.ofNat_toNat]
                · have hesc : escapeChar c = [c] := by
                    simp only [escapeChar, if_neg h1, if_neg h2, if_neg h3, if_neg h4,
                      if_neg h5, if_neg h6, if_neg h7, if_neg h8]
                  rw [hesc, List.cons_append, List.nil_append, readStr_plain acc h1 h2]

theorem readStr_escapes (l : List Char) : ∀ (acc rest : List Char),
    readStr acc (l.flatMap escapeChar ++ '"' :: rest) = some (⟨acc.reverse ++ l⟩, rest) := by
  induction l with
  | nil =>
      intro acc rest
      rw [List.flatMap_nil, List.nil_append, readStr]
      simp
  | cons c l ih =>
      intro acc rest
      rw [List.flatMap_cons, List.append_assoc, readStr_escape, ih]
      simp

theorem readStr_render (s : String) (rest : List Char) :
    readStr [] (s.toList.flatMap escapeChar ++ '"' :: rest) = some (s, rest) := by
  rw [readStr_escapes]
  rfl

/-! ### Round-trip, part 3: whitespace and head characters -/

theorem dropWs_cons_not {c : Char} (t : List Char) (h : wsChar c = false) :
    dropWs (c :: t) = c :: t := by
  simp [dropWs, h]

theorem dropWs_ws_append {ws : List Char} (h : ∀ c ∈ ws, wsChar c = true)
    (x : List Char) : dropWs (ws ++ x) = dropWs x := by
  induction ws with
  | nil => rfl
  | cons c t ih =>
      rw [List.cons_append, dropWs, if_pos (h c (by simp))]
      exact ih (fun d hd => h d (by simp [hd]))

theorem indentChars_ws (n : ℕ) : ∀ c ∈ indentChars n, wsChar c = true := by
  intro c hc
  rw [indentChars, List.mem_replicate] at hc
  rw [hc.2]
  rfl

theorem renderQ_head (q : ℚ) :
    ∃ c t, renderQ q = c :: t ∧ (c = '-' ∨ digitChar c = true) := by
  rcases hds : natDigs (decExp q + 1) (q.num.natAbs * 10 ^ decExp q / q.den) with _ | ⟨d, ds⟩
  · exact absurd hds (natDigs_ne_nil _ _)
  have hdig : digitChar d = true :=
    natDigs_all_digits _ _ d (by rw [hds]; exact List.mem_cons_self ..)
  by_cases hneg : q < 0
  · have hshape : ∃ t, renderQ q = '-' :: t := by
      simp only [renderQ, if_pos hneg]
      exact ⟨_, rfl⟩
    obtain ⟨t, ht⟩ := hshape
    exact ⟨'-', t, ht, Or.inl rfl⟩
  · by_cases hk0 : decExp q = 0
    · have hshape : ∃ t, renderQ q = d :: t := by
      
        simp only [renderQ, if_neg hneg, if_pos hk0, hds, List.nil_append]
        exact ⟨_, rfl⟩
      obtain ⟨t, ht⟩ := hshape
      exact ⟨d, t, ht, Or.inr hdig⟩
    · have hlen := natDigs_length (decExp q + 1) (q.num.natAbs * 10 ^ decExp q / q.den)
      rw [hds] at hlen
      have hshape : ∃ t, renderQ q = d :: t := by
        simp only [renderQ, if_neg hneg, if_neg hk0, hds, List.nil_append]
        rw [show (d :: ds).length - decExp q = ((d :: ds).length - decExp q - 1) + 1 by
          simp only [List.length_cons] at hlen ⊢
          omega]
        rw [List.take_succ_cons, List.cons_append]
        exact ⟨_, rfl⟩
      obtain ⟨t, ht⟩ := hshape
      exact ⟨d, t, ht, Or.inr hdig⟩

theorem head_not_special {c : Char} (h : c = '-' ∨ digitChar c = true) :
    wsChar c = false ∧ c ≠ ']' ∧ c ≠ '}' ∧ c ≠ 'n' ∧ c ≠ 't' ∧ c ≠ 'f' ∧ c ≠ '"' ∧
    c ≠ '[' ∧ c ≠ '{' := by
  rcases h with rfl | hd
  · exact ⟨by decide, by decide, by decide, by decide, by decide, by decide, by decide,
      by decide, by decide⟩
  · obtain ⟨-, -, -, -, h5, h6, h7, h8, h9, h10, h11, h12, -, -⟩ := digitChar_ne hd
    exact ⟨digitChar_not_ws hd, h11, h12, h5, h6, h7, h8, h9, h10⟩

theorem renderVal_head (ind : ℕ) (v : JsValue) :
    ∃ c t, renderVal ind v = c :: t ∧ wsChar c = false ∧ c ≠ ']' ∧ c ≠ '}' := by
  cases v with
  | undef => exact ⟨'n', _, rfl, rfl, by decide, by decide⟩
  | null => exact ⟨'n', _, rfl, rfl, by decide, by decide⟩
  | bool b =>
      cases b with
      | true => exact ⟨'t', _, rfl, rfl, by decide, by decide⟩
      | false => exact ⟨'f', _, rfl, rfl, by decide, by decide⟩
  | num n =>
      cases n with
      | fin q =>
          obtain ⟨c, t, hct, hc⟩ := renderQ_head q
          obtain ⟨h1, h2, h3, -⟩ := head_not_special hc
          exact ⟨c, t, by simp only [renderVal, renderNum, hct], h1, h2, h3⟩
      | nan => exact ⟨'n', _, rfl, rfl, by decide, by decide⟩
      | inf => exact ⟨'n', _, rfl, rfl, by decide, by decide⟩
      | negInf => exact ⟨'n', _, rfl, rfl, by decide, by decide⟩
  | str s => exact ⟨'"', _, rfl, rfl, by decide, by decide⟩
  | arr xs =>
      cases xs with
      | nil => exact ⟨'[', _, rfl, rfl, by decide, by decide⟩
      | cons x xs => exact ⟨'[', _, rfl, rfl, by decide, by decide⟩
  | obj fs =>
      by_cases hany : fs.any (fun kv => !isUndef kv.2) = true
      · exact ⟨'{', renderObjItems ind true fs ++ '\n' :: (indentChars ind ++ ['}']),
          by simp only [renderVal, if_pos hany], by decide, by decide, by decide⟩
      · exact ⟨'{', ['}'], by simp only [renderVal, if_neg hany], by decide, by decide,
          by decide⟩

theorem readVal_step_default (f : ℕ) {c : Char} {t : List Char}
    (hws : wsChar c = false) (hn : c ≠ 'n') (ht : c ≠ 't') (hf : c ≠ 'f')
    (hq : c ≠ '"') (hk : c ≠ '[') (hb : c ≠ '{') :
    readVal (f + 1) (c :: t) =
      (if (c == '-' || digitChar c) = true then
        (readNum (c :: t)).map (fun p => (JsValue.num (JsNum.fin p.1), p.2))
       else none) := by
  simp only [readVal]
  rw [dropWs_cons_not t hws]
  split
  all_goals
    first
      | rfl
      | (rename_i heq
         first
           | exact List.noConfusion heq
           | (rw [List.cons.injEq] at heq
              first
                | exact absurd heq.1 hn
                | exact absurd heq.1 ht
                | exact absurd heq.1 hf
                | exact absurd heq.1 hq
                | exact absurd heq.1 hk
                | exact absurd heq.1 hb
                | (obtain ⟨hh, htl⟩ := heq
                   subst hh
                   subst htl
                   rfl)))

/-! ### Round-trip, part 4: rendered composites -/

theorem pure_not_undef {v : JsValue} (h : pureVal v = true) : isUndef v = false := by
  cases v <;> first | rfl | (exact absurd h (by rw [pureVal]; exact Bool.false_ne_true))

theorem renderArrItems_first (ind : ℕ) (x : JsValue) (xs : List JsValue) :
    renderArrItems ind true (x :: xs) =
      '\n' :: (indentChars (ind + 2) ++ (renderVal (ind + 2) x ++ renderArrItems ind false xs)) := by
  rw [renderArrItems]
  rfl

theorem renderArrItems_more (ind : ℕ) (x : JsValue) (xs : List JsValue) :
    renderArrItems ind false (x :: xs) =
      ',' :: '\n' :: (indentChars (ind + 2) ++ (renderVal (ind + 2) x ++ renderArrItems ind false xs)) := by
  rw [renderArrItems]
  rfl

theorem renderObjItems_first (ind : ℕ) (k : String) {v : JsValue} (hund : isUndef v = false)
    (ms : List (String × JsValue)) :
    renderObjItems ind true ((k, v) :: ms) =
      '\n' :: (indentChars (ind + 2) ++ (renderStrChars k ++ ':' :: ' ' ::
        (renderVal (ind + 2) v ++ renderObjItems ind false ms))) := by
  rw [renderObjItems, hund]
  rfl

theorem renderObjItems_more (ind : ℕ) (k : String) {v : JsValue} (hund : isUndef v = false)
    (ms : List (String × JsValue)) :
    renderObjItems ind false ((k, v) :: ms) =
      ',' :: '\n' :: (indentChars (ind + 2) ++ (renderStrChars k ++ ':' :: ' ' ::
        (renderVal (ind + 2) v ++ renderObjItems ind false ms))) := by
  rw [renderObjItems, hund]
  rfl

theorem pureFields_any {k : String} {v : JsValue} {ms : List (String × JsValue)}
    (h : pureFields ((k, v) :: ms) = true) :
    ((k, v) :: ms).any (fun kv => !isUndef kv.2) = true := by
  rw [pureFields, Bool.and_eq_true] at h
  rw [List.any_cons]
  simp [pure_not_undef h.1]

theorem indentChars_length (n : ℕ) : (indentChars n).length = n := by
  simp [indentChars]

/-! ### Round-trip, part 5: single-step reader lemmas -/

theorem dropWs_cons_ws {c : Char} (t : List Char) (h : wsChar c = true) :
    dropWs (c :: t) = dropWs t := by
  simp [dropWs, h]

theorem dropWs_nl_indent (n : ℕ) {c : Char} (t : List Char) (h : wsChar c = false) :
    dropWs ('\n' :: (indentChars n ++ (c :: t))) = c :: t := by
  rw [dropWs_cons_ws _ (by decide), dropWs_ws_append (indentChars_ws n)]
  exact dropWs_cons_not t h

theorem readVal_step_null (f : ℕ) {cs r : List Char}
    (hdw : dropWs cs = 'n' :: 'u' :: 'l' :: 'l' :: r) :
    readVal (f + 1) cs = some (.null, r) := by
  simp only [readVal, hdw]

theorem readVal_step_true (f : ℕ) {cs r : List Char}
    (hdw : dropWs cs = 't' :: 'r' :: 'u' :: 'e' :: r) :
    readVal (f + 1) cs = some (.bool true, r) := by
  simp only [readVal, hdw]

theorem readVal_step_false (f : ℕ) {cs r : List Char}
    (hdw : dropWs cs = 'f' :: 'a' :: 'l' :: 's' :: 'e' :: r) :
    readVal (f + 1) cs = some (.bool false, r) := by
  simp only [readVal, hdw]

theorem readVal_step_str (f : ℕ) {cs r : List Char} (hdw : dropWs cs = '"' :: r) :
    readVal (f + 1) cs = (readStr [] r).map fun p => (JsValue.str p.1, p.2) := by
  simp only [readVal, hdw]

theorem readVal_step_arr_nil (f : ℕ) {cs r r2 : List Char}
    (hdw : dropWs cs = '[' :: r) (hdw2 : dropWs r = ']' :: r2) :
    readVal (f + 1) cs = some (.arr [], r2) := by
  simp only [readVal, hdw, hdw2]

theorem readVal_step_arr (f : ℕ) {cs r : List Char} (hdw : dropWs cs = '[' :: r)
    {c2 : Char} {t2 : List Char} (hdw2 : dropWs r = c2 :: t2) (hne : c2 ≠ ']') :
    readVal (f + 1) cs = (readItems f (c2 :: t2)).map fun p => (JsValue.arr p.1, p.2) := by
  simp only [readVal, hdw, hdw2]
  split
  · rename_i heq
    rw [List.cons.injEq] at heq
    exact absurd heq.1 hne
  · rfl

theorem readVal_step_obj_nil (f : ℕ) {cs r r2 : List Char}
    (hdw : dropWs cs = '{' :: r) (hdw2 : dropWs r = '}' :: r2) :
    readVal (f + 1) cs = some (.obj [], r2) := by
  simp only [readVal, hdw, hdw2]

theorem readVal_step_obj (f : ℕ) {cs r : List Char} (hdw : dropWs cs = '{' :: r)
    {c2 : Char} {t2 : List Char} (hdw2 : dropWs r = c2 :: t2) (hne : c2 ≠ '}') :
    readVal (f + 1) cs = (readFields f (c2 :: t2)).map fun p => (JsValue.obj p.1, p.2) := by
  simp only [readVal, hdw, hdw2]
  split
  · rename_i heq
    rw [List.cons.injEq] at heq
    exact absurd heq.1 hne
  · rfl

theorem readVal_step_num (f : ℕ) {cs : List Char} {c : Char} {t : List Char}
    (hdw : dropWs cs = c :: t) (hn : c ≠ 'n') (ht : c ≠ 't') (hf : c ≠ 'f')
    (hq : c ≠ '"') (hk : c ≠ '[') (hb : c ≠ '{') :
    readVal (f + 1) cs =
      (if (c == '-' || digitChar c) = true then
        (readNum (c :: t)).map (fun p => (JsValue.num (JsNum.fin p.1), p.2))
       else none) := by
  simp only [readVal, hdw]
  split
  all_goals
    first
      | rfl
      | (rename_i heq
         first
           | exact List.noConfusion heq
           | (rw [List.cons.injEq] at heq
              first
                | exact absurd heq.1 hn
                | exact absurd heq.1 ht
                | exact absurd heq.1 hf
                | exact absurd heq.1 hq
                | exact absurd heq.1 hk
                | exact absurd heq.1 hb
                | (obtain ⟨hh, htl⟩ := heq
                   subst hh
                   subst htl
                   rfl)))

theorem readItems_step_comma (f : ℕ) {cs : List Char} {v : JsValue} {t r2 : List Char}
    (hv : readVal f cs = some (v, t)) (hdw : dropWs t = ',' :: r2) :
    readItems (f + 1) cs = (readItems f r2).map fun q => (v :: q.1, q.2) := by
  simp only [readItems, hv, Option.bind, hdw]

theorem readItems_step_close (f : ℕ) {cs : List Char} {v : JsValue} {t r2 : List Char}
    (hv : readVal f cs = some (v, t)) (hdw : dropWs t = ']' :: r2) :
    readItems (f + 1) cs = some ([v], r2) := by
  simp only [readItems, hv, Option.bind, hdw]

theorem readFields_step_comma (f : ℕ) {cs r : List Char} {k : String} {t : List Char}
    (hdw : dropWs cs = '"' :: r) (hstr : readStr [] r = some (k, t))
    {r2 : List Char} (hcolon : dropWs t = ':' :: r2) {v : JsValue} {t2 : List Char}
    (hval : readVal f r2 = some (v, t2)) {r4 : List Char}
    (hnext : dropWs t2 = ',' :: r4) :
    readFields (f + 1) cs = (readFields f r4).map fun q => ((k, v) :: q.1, q.2) := by
  simp only [readFields, hdw, hstr, Option.bind, hcolon, hval, hnext]

theorem readFields_step_close (f : ℕ) {cs r : List Char} {k : String} {t : List Char}
    (hdw : dropWs cs = '"' :: r) (hstr : readStr [] r = some (k, t))
    {r2 : List Char} (hcolon : dropWs t = ':' :: r2) {v : JsValue} {t2 : List Char}
    (hval : readVal f r2 = some (v, t2)) {r4 : List Char}
    (hnext : dropWs t2 = '}' :: r4) :
    readFields (f + 1) cs = some ([(k, v)], r4) := by
  simp only [readFields, hdw, hstr, Option.bind, hcolon, hval, hnext]

/-! ### Round-trip, part 6: the printer/reader round trip -/

mutual

theorem rt_val : ∀ (v : JsValue) (fuel ind : ℕ) (ws rest : List Char),
    pureVal v = true → (∀ c ∈ ws, wsChar c = true) →
    (renderVal ind v).length < fuel → numBoundary rest = true →
    readVal fuel (ws ++ (renderVal ind v ++ rest)) = some (v, rest)
  | .undef, fuel, ind, ws, rest => by
      intro hp hws hf hr
      exact absurd hp Bool.false_ne_true
  | .null, fuel, ind, ws, rest => by
      intro hp hws hf hr
      cases fuel with
      | zero => exact absurd hf (by omega)
      | succ f =>
          exact readVal_step_null f (by rw [dropWs_ws_append hws]; rfl)
  | .bool true, fuel, ind, ws, rest => by
      intro hp hws hf hr
      cases fuel with
      | zero => exact absurd hf (by omega)
      | succ f =>
          exact readVal_step_true f (by rw [dropWs_ws_append hws]; rfl)
  | .bool false, fuel, ind, ws, rest => by
      intro hp hws hf hr
      cases fuel with
      | zero => exact absurd hf (by omega)
      | succ f =>
          exact readVal_step_false f (by rw [dropWs_ws_append hws]; rfl)
  | .num .nan, fuel, ind, ws, rest => by
      intro hp hws hf hr
      exact absurd hp Bool.false_ne_true
  | .num .inf, fuel, ind, ws, rest => by
      intro hp hws hf hr
      exact absurd hp Bool.false_ne_true
  | .num .negInf, fuel, ind, ws, rest => by
      intro hp hws hf hr
      exact absurd hp Bool.false_ne_true
  | .num (.fin q), fuel, ind, ws, rest => by
      intro hp hws hf hr
      have hdec : decOk q = true := by rw [pureVal] at hp; exact hp
      cases fuel with
      | zero => exact absurd hf (by omega)
      | succ f =>
          obtain ⟨c, t, hct, hc⟩ := renderQ_head q
          obtain ⟨hws0, hrb, hcb, hcn, hctt, hcf, hcq, hck, hcbr⟩ := head_not_special hc
          have hdw : dropWs (ws ++ (renderVal ind (.num (.fin q)) ++ rest)) =
              c :: (t ++ rest) := by
            rw [dropWs_ws_append hws,
              show renderVal ind (.num (.fin q)) = renderQ q from rfl, hct, List.cons_append]
            exact dropWs_cons_not _ hws0
          have hcond : (c == '-' || digitChar c) = true := by
            rcases hc with rfl | hd
            · rfl
            · simp [hd]
          rw [readVal_step_num f hdw hcn hctt hcf hcq hck hcbr, if_pos hcond,
            ← List.cons_append, ← hct, readNum_renderQ q hdec rest hr]
          rfl
  | .str s, fuel, ind, ws, rest => by
      intro hp hws hf hr
      cases fuel with
      | zero => exact absurd hf (by omega)
      | succ f =>
          have hdw : dropWs (ws ++ (renderVal ind (.str s) ++ rest)) =
              '"' :: (s.toList.flatMap escapeChar ++ ('"' :: rest)) := by
            rw [dropWs_ws_append hws,
              show renderVal ind (.str s) = renderStrChars s from rfl, renderStrChars,
              List.cons_append, dropWs_cons_not _ (by decide)]
            simp [List.append_assoc]
          rw [readVal_step_str f hdw, readStr_render]
          rfl
  | .arr [], fuel, ind, ws, rest => by
      intro hp hws hf hr
      cases fuel with
      | zero => exact absurd hf (by omega)
      | succ f =>
          have hdw : dropWs (ws ++ (renderVal ind (.arr []) ++ rest)) =
              '[' :: (']' :: rest) := by
            rw [dropWs_ws_append hws]
            rfl
          exact readVal_step_arr_nil f hdw (dropWs_cons_not _ (by decide))
  | .arr (x :: xs), fuel, ind, ws, rest => by
      intro hp hws hf hr
      have hpx : pureVal x = true := by
        rw [pureVal, pureItems, Bool.and_eq_true] at hp
        exact hp.1
      have hpxs : pureItems xs = true := by
        rw [pureVal, pureItems, Bool.and_eq_true] at hp
        exact hp.2
      cases fuel with
      | zero => exact absurd hf (by omega)
      | succ f =>
          obtain ⟨cx, tx, hcx, hcxws, hcxbr, -⟩ := renderVal_head (ind + 2) x
          have hshape : renderVal ind (.arr (x :: xs)) ++ rest =
              '[' :: ('\n' :: (indentChars (ind + 2) ++ (renderVal (ind + 2) x ++
                (renderArrItems ind false xs ++
                  ('\n' :: (indentChars ind ++ (']' :: rest))))))) := by
            rw [show renderVal ind (.arr (x :: xs)) = '[' :: (renderArrItems ind true (x :: xs)
              ++ '\n' :: (indentChars ind ++ [']'])) from rfl, renderArrItems_first]
            simp [List.append_assoc]
          have hdw : dropWs (ws ++ (renderVal ind (.arr (x :: xs)) ++ rest)) =
              '[' :: ('\n' :: (indentChars (ind + 2) ++ (renderVal (ind + 2) x ++
                (renderArrItems ind false xs ++
                  ('\n' :: (indentChars ind ++ (']' :: rest))))))) := by
            rw [dropWs_ws_append hws, hshape]
            exact dropWs_cons_not _ (by decide)
          have hdw2 : dropWs ('\n' :: (indentChars (ind + 2) ++ (renderVal (ind + 2) x ++
              (renderArrItems ind false xs ++ ('\n' :: (indentChars ind ++ (']' :: rest)))))))
              = cx :: (tx ++ (renderArrItems ind false xs ++
                  ('\n' :: (indentChars ind ++ (']' :: rest))))) := by
            rw [dropWs_cons_ws _ (by decide), dropWs_ws_append (indentChars_ws _), hcx,
              List.cons_append]
            exact dropWs_cons_not _ hcxws
          have hfa : (renderVal (ind + 2) x).length +
              (renderArrItems ind false xs).length + 1 < f := by
            have hh := congrArg List.length hshape
            simp only [List.length_append, List.length_cons, indentChars_length] at hh
            omega
          have hitems := rt_items x xs f ind [] rest hpx hpxs (by simp) hfa
          simp only [List.nil_append] at hitems
          rw [readVal_step_arr f hdw hdw2 hcxbr, ← List.cons_append, ← hcx, hitems]
          rfl
  | .obj [], fuel, ind, ws, rest => by
      intro hp hws hf hr
      cases fuel with
      | zero => exact absurd hf (by omega)
      | succ f =>
          have hdw : dropWs (ws ++ (renderVal ind (.obj []) ++ rest)) =
              '{' :: ('}' :: rest) := by
            rw [dropWs_ws_append hws]
            rfl
          exact readVal_step_obj_nil f hdw (dropWs_cons_not _ (by decide))
  | .obj ((k, v) :: ms), fuel, ind, ws, rest => by
      intro hp hws hf hr
      have hpv : pureVal v = true := by
        rw [pureVal, pureFields, Bool.and_eq_true] at hp
        exact hp.1
      have hpms : pureFields ms = true := by
        rw [pureVal, pureFields, Bool.and_eq_true] at hp
        exact hp.2
      have hany : ((k, v) :: ms).any (fun kv => !isUndef kv.2) = true :=
        pureFields_any (by rw [pureVal] at hp; exact hp)
      have hund : isUndef v = false := pure_not_undef hpv
      cases fuel with
      | zero => exact absurd hf (by omega)
      | succ f =>
          have hshape : renderVal ind (.obj ((k, v) :: ms)) ++ rest =
              '{' :: ('\n' :: (indentChars (ind + 2) ++ (renderStrChars k ++ (':' :: (' ' ::
                (renderVal (ind + 2) v ++ (renderObjItems ind false ms ++
                  ('\n' :: (indentChars ind ++ ('}' :: rest)))))))))) := by
            rw [show renderVal ind (.obj ((k, v) :: ms)) =
              (if ((k, v) :: ms).any (fun kv => !isUndef kv.2) then
                '{' :: (renderObjItems ind true ((k, v) :: ms) ++ '\n' ::
                  (indentChars ind ++ ['}']))
               else ['{', '}']) from rfl,
              if_pos hany, renderObjItems_first ind k hund ms]
            simp [List.append_assoc]
          have hdw : dropWs (ws ++ (renderVal ind (.obj ((k, v) :: ms)) ++ rest)) =
              '{' :: ('\n' :: (indentChars (ind + 2) ++ (renderStrChars k ++ (':' :: (' ' ::
                (renderVal (ind + 2) v ++ (renderObjItems ind false ms ++
                  ('\n' :: (indentChars ind ++ ('}' :: rest)))))))))) := by
            rw [dropWs_ws_append hws, hshape]
            exact dropWs_cons_not _ (by decide)
          have hdw2 : dropWs ('\n' :: (indentChars (ind + 2) ++ (renderStrChars k ++
              (':' :: (' ' :: (renderVal (ind + 2) v ++ (renderObjItems ind false ms ++
                ('\n' :: (indentChars ind ++ ('}' :: rest)))))))))) =
              '"' :: ((k.toList.flatMap escapeChar ++ ['"']) ++ (':' :: (' ' ::
                (renderVal (ind + 2) v ++ (renderObjItems ind false ms ++
                  ('\n' :: (indentChars ind ++ ('}' :: rest)))))))) := by
            rw [dropWs_cons_ws _ (by decide), dropWs_ws_append (indentChars_ws _),
              renderStrChars, List.cons_append]
            exact dropWs_cons_not _ (by decide)
          have hfa : (renderStrChars k).length + (renderVal (ind + 2) v).length +
              (renderObjItems ind false ms).length + 2 < f := by
            have hh := congrArg List.length hshape
            simp only [List.length_append, List.length_cons, indentChars_length] at hh
            omega
          have hflds := rt_fields k v ms f ind [] rest hpv hpms (by simp) hfa
          simp only [List.nil_append] at hflds
          rw [readVal_step_obj f hdw hdw2 (by decide), ← List.cons_append, ← renderStrChars,
            hflds]
          rfl
  termination_by v _ _ _ _ => sizeOf v

theorem rt_items : ∀ (x : JsValue) (xs : List JsValue) (fuel ind : ℕ) (ws rest : List Char),
    pureVal x = true → pureItems xs = true → (∀ c ∈ ws, wsChar c = true) →
    (renderVal (ind + 2) x).length + (renderArrItems ind false xs).length + 1 < fuel →
    readItems fuel (ws ++ (renderVal (ind + 2) x ++ (renderArrItems ind false xs ++
      ('\n' :: (indentChars ind ++ (']' :: rest)))))) = some (x :: xs, rest)
  | x, [], fuel, ind, ws, rest => by
      intro hpx hpxs hws hfuel
      cases fuel with
      | zero => exact absurd hfuel (by omega)
      | succ f =>
          rw [show renderArrItems ind false ([] : List JsValue) = [] from rfl,
            List.nil_append]
          have hv := rt_val x f (ind + 2) ws ('\n' :: (indentChars ind ++ (']' :: rest)))
            hpx hws (by omega) (by rfl)
          exact readItems_step_close f hv (dropWs_nl_indent ind _ (by decide))
  | x, y :: ys, fuel, ind, ws, rest => by
      intro hpx hpxs hws hfuel
      have hpy : pureVal y = true := by
        rw [pureItems, Bool.and_eq_true] at hpxs
        exact hpxs.1
      have hpys : pureItems ys = true := by
        rw [pureItems, Bool.and_eq_true] at hpxs
        exact hpxs.2
      cases fuel with
      | zero => exact absurd hfuel (by omega)
      | succ f =>
          have hlen := congrArg List.length (renderArrItems_more ind y ys)
          simp only [List.length_cons, List.length_append, indentChars_length] at hlen
          have hb : numBoundary (renderArrItems ind false (y :: ys) ++
              ('\n' :: (indentChars ind ++ (']' :: rest)))) = true := by
            rw [renderArrItems_more, List.cons_append]
            rfl
          have hv := rt_val x f (ind + 2) ws (renderArrItems ind false (y :: ys) ++
            ('\n' :: (indentChars ind ++ (']' :: rest)))) hpx hws (by omega) hb
          have hdw : dropWs (renderArrItems ind false (y :: ys) ++
              ('\n' :: (indentChars ind ++ (']' :: rest)))) =
              ',' :: (('\n' :: (indentChars (ind + 2) ++ (renderVal (ind + 2) y ++
                renderArrItems ind false ys))) ++
                ('\n' :: (indentChars ind ++ (']' :: rest)))) := by
            rw [renderArrItems_more, List.cons_append]
            exact dropWs_cons_not _ (by decide)
          have hrec := rt_items y ys f ind ('\n' :: indentChars (ind + 2)) rest hpy hpys
            (by
              intro c hc
              rcases List.mem_cons.mp hc with rfl | hmem
              · rfl
              · exact indentChars_ws _ c hmem)
            (by omega)
          have hrec2 : readItems f (('\n' :: (indentChars (ind + 2) ++ (renderVal (ind + 2) y ++
              renderArrItems ind false ys))) ++ ('\n' :: (indentChars ind ++ (']' :: rest)))) =
              some (y :: ys, rest) := by
            rw [show (('\n' :: (indentChars (ind + 2) ++ (renderVal (ind + 2) y ++
              renderArrItems ind false ys))) ++ ('\n' :: (indentChars ind ++ (']' :: rest)))) =
              ('\n' :: indentChars (ind + 2)) ++ (renderVal (ind + 2) y ++
                (renderArrItems ind false ys ++ ('\n' :: (indentChars ind ++ (']' :: rest)))))
              from by simp [List.append_assoc]]
            exact hrec
          rw [readItems_step_comma f hv hdw, hrec2]
          rfl
  termination_by x xs _ _ _ _ => sizeOf x + sizeOf xs

theorem rt_fields : ∀ (k : String) (v : JsValue) (ms : List (String × JsValue))
    (fuel ind : ℕ) (ws rest : List Char),
    pureVal v = true → pureFields ms = true → (∀ c ∈ ws, wsChar c = true) →
    (renderStrChars k).length + (renderVal (ind + 2) v).length +
      (renderObjItems ind false ms).length + 2 < fuel →
    readFields fuel (ws ++ (renderStrChars k ++ (':' :: (' ' :: (renderVal (ind + 2) v ++
      (renderObjItems ind false ms ++ ('\n' :: (indentChars ind ++ ('}' :: rest)))))))))
      = some ((k, v) :: ms, rest)
  | k, v, [], fuel, ind, ws, rest => by
      intro hpv hpms hws hfuel
      cases fuel with
      | zero => exact absurd hfuel (by omega)
      | succ f =>
          rw [show renderObjItems ind false ([] : List (String × JsValue)) = [] from rfl,
            List.nil_append]
          have hdw : dropWs (ws ++ (renderStrChars k ++ (':' :: (' ' ::
              (renderVal (ind + 2) v ++ ('\n' :: (indentChars ind ++ ('}' :: rest)))))))) =
              '"' :: ((k.toList.flatMap escapeChar ++ ['"']) ++ (':' :: (' ' ::
                (renderVal (ind + 2) v ++ ('\n' :: (indentChars ind ++ ('}' :: rest))))))) := by
            rw [dropWs_ws_append hws, renderStrChars, List.cons_append]
            exact dropWs_cons_not _ (by decide)
          have hstr : readStr [] ((k.toList.flatMap escapeChar ++ ['"']) ++ (':' :: (' ' ::
              (renderVal (ind + 2) v ++ ('\n' :: (indentChars ind ++ ('}' :: rest))))))) =
              some (k, ':' :: (' ' :: (renderVal (ind + 2) v ++
                ('\n' :: (indentChars ind ++ ('}' :: rest)))))) := by
            rw [show ((k.toList.flatMap escapeChar ++ ['"']) ++ (':' :: (' ' ::
              (renderVal (ind + 2) v ++ ('\n' :: (indentChars ind ++ ('}' :: rest))))))) =
              k.toList.flatMap escapeChar ++ ('"' :: (':' :: (' ' ::
              (renderVal (ind + 2) v ++ ('\n' :: (indentChars ind ++ ('}' :: rest)))))))
              from by simp [List.append_assoc]]
            exact readStr_render k _
          have hval : readVal f (' ' :: (renderVal (ind + 2) v ++
              ('\n' :: (indentChars ind ++ ('}' :: rest))))) =
              some (v, '\n' :: (indentChars ind ++ ('}' :: rest))) := by
            have h0 := rt_val v f (ind + 2) [' '] ('\n' :: (indentChars ind ++ ('}' :: rest)))
              hpv (by intro c hc; simp at hc; subst hc; rfl) (by omega) (by rfl)
            rw [List.singleton_append] at h0
            exact h0
          exact readFields_step_close f hdw hstr (dropWs_cons_not _ (by decide)) hval
            (dropWs_nl_indent ind _ (by decide))
  | k, v, (k2, v2) :: ms2, fuel, ind, ws, rest => by
      intro hpv hpms hws hfuel
      have hpv2 : pureVal v2 = true := by
        rw [pureFields, Bool.and_eq_true] at hpms
        exact hpms.1
      have hpms2 : pureFields ms2 = true := by
        rw [pureFields, Bool.and_eq_true] at hpms
        exact hpms.2
      have hund2 : isUndef v2 = false := pure_not_undef hpv2
      cases fuel with
      | zero => exact absurd hfuel (by omega)
      | succ f =>
          have hlen := congrArg List.length (renderObjItems_more ind k2 hund2 ms2)
          simp only [List.length_cons, List.length_append, indentChars_length] at hlen
          have hdw : dropWs (ws ++ (renderStrChars k ++ (':' :: (' ' ::
              (renderVal (ind + 2) v ++ (renderObjItems ind false ((k2, v2) :: ms2) ++
                ('\n' :: (indentChars ind ++ ('}' :: rest))))))))) =
              '"' :: ((k.toList.flatMap escapeChar ++ ['"']) ++ (':' :: (' ' ::
                (renderVal (ind + 2) v ++ (renderObjItems ind false ((k2, v2) :: ms2) ++
                  ('\n' :: (indentChars ind ++ ('}' :: rest)))))))) := by
            rw [dropWs_ws_append hws, renderStrChars, List.cons_append]
            exact dropWs_cons_not _ (by decide)
          have hstr : readStr [] ((k.toList.flatMap escapeChar ++ ['"']) ++ (':' :: (' ' ::
              (renderVal (ind + 2) v ++ (renderObjItems ind false ((k2, v2) :: ms2) ++
                ('\n' :: (indentChars ind ++ ('}' :: rest)))))))) =
              some (k, ':' :: (' ' :: (renderVal (ind + 2) v ++
                (renderObjItems ind false ((k2, v2) :: ms2) ++
                  ('\n' :: (indentChars ind ++ ('}' :: rest))))))) := by
            rw [show ((k.toList.flatMap escapeChar ++ ['"']) ++ (':' :: (' ' ::
              (renderVal (ind + 2) v ++ (renderObjItems ind false ((k2, v2) :: ms2) ++
                ('\n' :: (indentChars ind ++ ('}' :: rest)))))))) =
              k.toList.flatMap escapeChar ++ ('"' :: (':' :: (' ' ::
              (renderVal (ind + 2) v ++ (renderObjItems ind false ((k2, v2) :: ms2) ++
                ('\n' :: (indentChars ind ++ ('}' :: rest))))))))
              from by simp [List.append_assoc]]
            exact readStr_render k _
          have hb : numBoundary (renderObjItems ind false ((k2, v2) :: ms2) ++
              ('\n' :: (indentChars ind ++ ('}' :: rest)))) = true := by
            rw [renderObjItems_more ind k2 hund2 ms2, List.cons_append]
            rfl
          have hval : readVal f (' ' :: (renderVal (ind + 2) v ++
              (renderObjItems ind false ((k2, v2) :: ms2) ++
                ('\n' :: (indentChars ind ++ ('}' :: rest)))))) =
              some (v, renderObjItems ind false ((k2, v2) :: ms2) ++
                ('\n' :: (indentChars ind ++ ('}' :: rest)))) := by
            have h0 := rt_val v f (ind + 2) [' ']
              (renderObjItems ind false ((k2, v2) :: ms2) ++
                ('\n' :: (indentChars ind ++ ('}' :: rest))))
              hpv (by intro c hc; simp at hc; subst hc; rfl) (by omega) hb
            rw [List.singleton_append] at h0
            exact h0
          have hnext : dropWs (renderObjItems ind false ((k2, v2) :: ms2) ++
              ('\n' :: (indentChars ind ++ ('}' :: rest)))) =
              ',' :: (('\n' :: (indentChars (ind + 2) ++ (renderStrChars k2 ++ ':' :: ' ' ::
                (renderVal (ind + 2) v2 ++ renderObjItems ind false ms2)))) ++
                ('\n' :: (indentChars ind ++ ('}' :: rest)))) := by
            rw [renderObjItems_more ind k2 hund2 ms2, List.cons_append]
            exact dropWs_cons_not _ (by decide)
          have hrec := rt_fields k2 v2 ms2 f ind ('\n' :: indentChars (ind + 2)) rest hpv2 hpms2
            (by
              intro c hc
              rcases List.mem_cons.mp hc with rfl | hmem
              · rfl
              · exact indentChars_ws _ c hmem)
            (by omega)
          have hrec2 : readFields f (('\n' :: (indentChars (ind + 2) ++ (renderStrChars k2 ++
              ':' :: ' ' :: (renderVal (ind + 2) v2 ++ renderObjItems ind false ms2)))) ++
              ('\n' :: (indentChars ind ++ ('}' :: rest)))) = some ((k2, v2) :: ms2, rest) := by
            rw [show (('\n' :: (indentChars (ind + 2) ++ (renderStrChars k2 ++
              ':' :: ' ' :: (renderVal (ind + 2) v2 ++ renderObjItems ind false ms2)))) ++
              ('\n' :: (indentChars ind ++ ('}' :: rest)))) =
              ('\n' :: indentChars (ind + 2)) ++ (renderStrChars k2 ++ (':' :: (' ' ::
                (renderVal (ind + 2) v2 ++ (renderObjItems ind false ms2 ++
                  ('\n' :: (indentChars ind ++ ('}' :: rest))))))))
              from by simp [List.append_assoc]]
            exact hrec
          rw [readFields_step_comma f hdw hstr (dropWs_cons_not _ (by decide)) hval hnext,
            hrec2]
          rfl
  termination_by _ v ms _ _ _ _ => sizeOf v + sizeOf ms

end

/-! ### Round-trip, part 7: from the codec round trip to `parseWallData` -/

theorem jsonParse_stringify2 {v : JsValue} (hp : pureVal v = true) :
    jsonParse (stringify2 v) = some v := by
  have hread : readVal ((stringify2 v).length + 1) (stringify2 v).toList = some (v, []) := by
    rw [show (stringify2 v).toList = renderVal 0 v from rfl,
      show (stringify2 v).length = (renderVal 0 v).length from rfl]
    have h0 := rt_val v ((renderVal 0 v).length + 1) 0 [] [] hp (by simp) (by omega) (by rfl)
    simpa using h0
  simp only [jsonParse, hread]
  rfl

theorem encodeSettings_pure (s : Settings) (h1 : decOk s.wallWidth = true)
    (h2 : decOk s.wallHeight = true) (h3 : decOk s.gridStep = true) :
    pureVal (encodeSettings s) = true := by
  simp [encodeSettings, pureVal, pureFields, h1, h2, h3]

theorem encodePoster_pure (p : WallPoster) (h1 : decOk p.x = true) (h2 : decOk p.y = true)
    (h3 : decOk p.width = true) (h4 : decOk p.height = true) :
    pureVal (encodePoster p) = true := by
  cases himg : p.imageSrc with
  | none => simp [encodePoster, himg, pureVal, pureFields, h1, h2, h3, h4]
  | some src => simp [encodePoster, himg, pureVal, pureFields, h1, h2, h3, h4]

theorem posters_pure (ps : List WallPoster)
    (h : ∀ p ∈ ps, decOk p.x = true ∧ decOk p.y = true ∧
      decOk p.width = true ∧ decOk p.height = true) :
    pureItems (ps.map encodePoster) = true := by
  induction ps with
  | nil => rfl
  | cons p ps ih =>
      rw [List.map_cons, pureItems, Bool.and_eq_true]
      obtain ⟨ha, hb, hc, hd⟩ := h p (by simp)
      exact ⟨encodePoster_pure p ha hb hc hd, ih fun q hq => h q (by simp [hq])⟩

theorem encodeWallData_pure (d : WallData) (hd : d.decimal) :
    pureVal (encodeWallData d) = true := by
  obtain ⟨h1, h2, h3, hp⟩ := hd
  have hps := posters_pure d.posters hp
  have hset := encodeSettings_pure d.settings h1 h2 h3
  rw [show pureVal (encodeWallData d) =
    (pureVal (encodeSettings d.settings) &&
      (pureItems (d.posters.map encodePoster) && true)) from rfl, hset, hps]
  rfl

theorem encode_shape (d : WallData) :
    (downloadJsonFile d).toList =
      ('{' :: (renderObjItems 0 true
        [("settings", encodeSettings d.settings),
         ("posters", .arr (d.posters.map encodePoster))] ++ '\n' :: indentChars 0)) ++ ['}'] := by
  rw [show (downloadJsonFile d).toList = renderVal 0 (encodeWallData d) from rfl,
    show renderVal 0 (encodeWallData d) = '{' :: (renderObjItems 0 true
      [("settings", encodeSettings d.settings),
       ("posters", .arr (d.posters.map encodePoster))] ++ '\n' :: (indentChars 0 ++ ['}']))
     from rfl]
  simp

theorem jsTrim_fixed {m : List Char} {c1 c2 : Char}
    (h1 : jsTrimChar c1 = false) (h2 : jsTrimChar c2 = false) (s : String)
    (hs : s.toList = (c1 :: m) ++ [c2]) : jsTrim s = s := by
  obtain ⟨data⟩ := s
  have hdata : data = (c1 :: m) ++ [c2] := hs
  subst hdata
  rw [jsTrim]
  have e1 : (String.mk ((c1 :: m) ++ [c2])).toList = c1 :: (m ++ [c2]) := by
    rw [show (String.mk ((c1 :: m) ++ [c2])).toList = (c1 :: m) ++ [c2] from rfl,
      List.cons_append]
  rw [e1, List.dropWhile_cons_of_neg (by simp [h1])]
  have e2 : (c1 :: (m ++ [c2])).reverse = c2 :: (m.reverse ++ [c1]) := by
    simp
  rw [e2, List.dropWhile_cons_of_neg (by simp [h2]), ← e2, List.reverse_reverse,
    List.cons_append]

theorem jsTrim_encode (d : WallData) :
    jsTrim (downloadJsonFile d) = downloadJsonFile d :=
  jsTrim_fixed (by decide) (by decide) _ (encode_shape d)

theorem downloadJsonFile_ne_empty (d : WallData) :
    (downloadJsonFile d).isEmpty = false := by
  rw [Bool.eq_false_iff]
  intro hemp
  have h0 : downloadJsonFile d = "" := (String.isEmpty_iff _).mp hemp
  have h2 := congrArg String.toList h0
  rw [encode_shape d, show ("" : String).toList = [] from rfl] at h2
  exact absurd h2 (by simp)

theorem encodeSettings_ok (s : Settings) (hw : 0 < s.wallWidth) (hh : 0 < s.wallHeight)
    (hg : 0 < s.gridStep) : isSettings (encodeSettings s) = true :=
  isSettings_iff_spec.mpr
    ⟨⟨s.wallWidth, rfl, hw⟩, ⟨s.wallHeight, rfl, hh⟩, ⟨s.background, rfl⟩,
     ⟨s.showGrid, rfl⟩, ⟨s.gridStep, rfl, hg⟩, ⟨s.gridColor, rfl⟩⟩

theorem encodePoster_ok (p : WallPoster) (hw : 0 < p.width) (hh : 0 < p.height) :
    isPoster (encodePoster p) = true := by
  cases himg : p.imageSrc with
  | none =>
      have he : encodePoster p = .obj
          [("id", .str p.id), ("sizeId", .str p.sizeId), ("x", .num (.fin p.x)),
           ("y", .num (.fin p.y)), ("width", .num (.fin p.width)),
           ("height", .num (.fin p.height)), ("label", .str p.label)] := by
        rw [encodePoster, himg]
        rfl
      rw [he]
      exact isPoster_iff_spec.mpr
        ⟨⟨p.id, rfl⟩, ⟨p.sizeId, rfl⟩, ⟨p.x, rfl⟩, ⟨p.y, rfl⟩, ⟨p.width, rfl, hw⟩,
         ⟨p.height, rfl, hh⟩, ⟨p.label, rfl⟩, Or.inl rfl⟩
  | some src =>
      have he : encodePoster p = .obj
          [("id", .str p.id), ("sizeId", .str p.sizeId), ("x", .num (.fin p.x)),
           ("y", .num (.fin p.y)), ("width", .num (.fin p.width)),
           ("height", .num (.fin p.height)), ("label", .str p.label),
           ("imageSrc", .str src)] := by
        rw [encodePoster, himg]
        rfl
      rw [he]
      exact isPoster_iff_spec.mpr
        ⟨⟨p.id, rfl⟩, ⟨p.sizeId, rfl⟩, ⟨p.x, rfl⟩, ⟨p.y, rfl⟩, ⟨p.width, rfl, hw⟩,
         ⟨p.height, rfl, hh⟩, ⟨p.label, rfl⟩, Or.inr (Or.inr ⟨src, rfl⟩)⟩

/-- **C5.** Round trip: exporting any valid in-memory wall document (all
numeric fields decimal-printable, as every finite double is) with
`downloadJsonFile` and validating the produced text with `parseWallData`
succeeds - the error is null and the returned document carries the document's
own settings object and its posters in their original order, field for
field. -/
theorem export_roundtrip (d : WallData) (hv : d.valid) (hd : d.decimal) :
    parseWallData (downloadJsonFile d) =
      ⟨some ⟨encodeSettings d.settings, d.posters.map encodePoster⟩, none⟩ := by
  obtain ⟨hw, hh, hg, hp⟩ := hv
  have htrim := jsTrim_encode d
  have hne := downloadJsonFile_ne_empty d
  have hparse : jsonParse (downloadJsonFile d) = some (encodeWallData d) :=
    jsonParse_stringify2 (encodeWallData_pure d hd)
  have hrec : isRecord (encodeWallData d) = true := rfl
  have hgs : getField (encodeWallData d) "settings" = encodeSettings d.settings := rfl
  have hgp : getField (encodeWallData d) "posters" =
      .arr (d.posters.map encodePoster) := rfl
  have hset : isSettings (encodeSettings d.settings) = true := encodeSettings_ok _ hw hh hg
  have hall : (d.posters.map encodePoster).all isPoster = true := by
    rw [List.all_eq_true]
    intro x hx
    obtain ⟨p, hpmem, rfl⟩ := List.mem_map.mp hx
    exact encodePoster_ok p (hp p hpmem).1 (hp p hpmem).2
  simp [parseWallData, htrim, hne, hparse, hrec, hgs, hgp, hset, hall]

/-- Concrete check of the C5 round trip on a sample document. -/
theorem export_roundtrip_witness :
    ((⟨⟨1400, 800, "#fff", true, 20, "#eee"⟩,
        [⟨"p1", "s1", 10, 10, 100, 150, "A", none⟩]⟩ : WallData).valid ∧
      (⟨⟨1400, 800, "#fff", true, 20, "#eee"⟩,
        [⟨"p1", "s1", 10, 10, 100, 150, "A", none⟩]⟩ : WallData).decimal) ∧
    parseWallData (downloadJsonFile
      (⟨⟨1400, 800, "#fff", true, 20, "#eee"⟩,
        [⟨"p1", "s1", 10, 10, 100, 150, "A", none⟩]⟩ : WallData)) =
      ⟨some ⟨encodeSettings ⟨1400, 800, "#fff", true, 20, "#eee"⟩,
        [(⟨"p1", "s1", 10, 10, 100, 150, "A", none⟩ : WallPoster)].map encodePoster⟩,
       none⟩ :=
  ⟨⟨⟨by decide, by decide, by decide, by decide⟩,
    ⟨by decide, by decide, by decide, by decide⟩⟩,
   export_roundtrip _ ⟨by decide, by decide, by decide, by decide⟩
     ⟨by decide, by decide, by decide, by decide⟩⟩
